import Mathlib

set_option maxRecDepth 100000

/-!
Verification of the LSP test harness in verify_lsp.py: the framed transport
layer (send_request, read_response) and the diagnostics wait loop of main.

Modelling conventions.

* Python byte streams are lists of natural numbers below 256. Python strings
  are lists of Unicode code points below 0x110000; code points rather than
  Lean Char because a Python str may hold lone surrogates, which Char cannot.
* json.dumps with its default settings (ensure_ascii true, item separator
  comma-space, key separator colon-space, no sort_keys) and json.loads are
  modelled after the CPython json module, with one documented boundary:
  non-integer numerals (a fraction part, an exponent part, NaN, Infinity)
  are outside the model and are mapped to the distinguished error value
  floatLimit. The harness itself only ever carries integers, and no claim
  involves non-integer numbers.
* Python exceptions are an explicit error type PyErr. The JSONDecodeError
  of json.loads is a ValueError subclass in Python; the model keeps it as
  its own constructor jsonError for precision. An exception escaping main
  uncaught is the .error case of the driver functions.
-/

namespace VerifyLsp

/-- A Python string: a list of Unicode code points. -/
abbrev Str := List Nat

/-- Builds a code point list from Lean characters (all our literals are ASCII). -/
def cl (cs : List Char) : Str := cs.map Char.toNat

/-- A JSON value as the Python json module produces it, restricted to integer
numerals (see the module docstring). Objects keep insertion order, as Python
dicts do. -/
inductive Json : Type where
  | null : Json
  | bool : Bool → Json
  | num : Int → Json
  | str : Str → Json
  | arr : List Json → Json
  | obj : List (Str × Json) → Json
deriving Repr

/-- The Python exceptions the harness can raise, plus two model-only markers:
floatLimit for non-integer numerals (outside the model) and modelFuel for
parser fuel exhaustion (proved unreachable where it matters). -/
inductive PyErr : Type where
  | valueError : PyErr
  | typeError : PyErr
  | keyError : PyErr
  | indexError : PyErr
  | unicodeError : PyErr
  | jsonError : PyErr
  | floatLimit : PyErr
  | modelFuel : PyErr
deriving DecidableEq, Repr

/-! ## json.dumps, with ensure_ascii -/

/-- Decimal digit test on a code point. -/
def isDigit (c : Nat) : Bool := 48 ≤ c && c ≤ 57

/-- Lowercase hex digit for a value below 16, as CPython prints in \uXXXX. -/
def hexDig (n : Nat) : Nat := if n < 10 then 48 + n else 87 + n

/-- A \uXXXX escape for a code point below 0x10000. -/
def uEsc (n : Nat) : Str :=
  [92, 117, hexDig (n / 4096 % 16), hexDig (n / 256 % 16), hexDig (n / 16 % 16), hexDig (n % 16)]

/-- CPython ESCAPE_ASCII: quote and backslash get short escapes, the five named
control characters too, the remaining controls and everything outside
0x20..0x7e become \uXXXX, with a surrogate pair for code points above 0xffff. -/
def escCp (c : Nat) : Str :=
  if c = 34 then [92, 34]
  else if c = 92 then [92, 92]
  else if c = 8 then [92, 98]
  else if c = 9 then [92, 116]
  else if c = 10 then [92, 110]
  else if c = 12 then [92, 102]
  else if c = 13 then [92, 114]
  else if c < 32 then uEsc c
  else if c < 127 then [c]
  else if c < 65536 then uEsc c
  else uEsc (55296 + (c - 65536) / 1024) ++ uEsc (56320 + (c - 65536) % 1024)

/-- A serialized JSON string: quote, escaped contents, quote. -/
def dumpStr (s : Str) : Str := 34 :: (s.flatMap escCp ++ [34])

/-- Decimal digits of a positive number, most significant first; the fuel is
structural and any fuel of at least n works (a number has at most n digits). -/
def digsAux : Nat → Nat → Str
  | 0, _ => []
  | _, 0 => []
  | f + 1, n => digsAux f (n / 10) ++ [48 + n % 10]

/-- Decimal digits of a natural number, most significant first, as str(n). -/
def natDigs (n : Nat) : Str := if n = 0 then [48] else digsAux n n

/-- Decimal rendering of an integer: optional minus sign, then digits. -/
def intDigs (i : Int) : Str := if i < 0 then 45 :: natDigs i.natAbs else natDigs i.natAbs

mutual

/-- json.dumps on a value, as a code point list. Default separators: items are
joined by comma-space, keys and values by colon-space. -/
def dumps : Json → Str
  | .null => cl ['n', 'u', 'l', 'l']
  | .bool true => cl ['t', 'r', 'u', 'e']
  | .bool false => cl ['f', 'a', 'l', 's', 'e']
  | .num i => intDigs i
  | .str s => dumpStr s
  | .arr xs => 91 :: (dumpsList xs ++ [93])
  | .obj kvs => 123 :: (dumpsMembers kvs ++ [125])

/-- Array elements joined by comma-space. -/
def dumpsList : List Json → Str
  | [] => []
  | [x] => dumps x
  | x :: y :: t => dumps x ++ (44 :: 32 :: dumpsList (y :: t))

/-- Object members, each key colon-space value, joined by comma-space. -/
def dumpsMembers : List (Str × Json) → Str
  | [] => []
  | [(k, v)] => dumpStr k ++ (58 :: 32 :: dumps v)
  | (k, v) :: m :: t => dumpStr k ++ (58 :: 32 :: (dumps v ++ (44 :: 32 :: dumpsMembers (m :: t))))

end

/-! ## json.loads -/

/-- The whitespace the json scanner skips: space, tab, newline, carriage return. -/
def isWs (c : Nat) : Bool := c = 32 || c = 9 || c = 10 || c = 13

def skipWs : Str → Str
  | c :: t => if isWs c then skipWs t else c :: t
  | [] => []

/-- Value of a hex digit code point, accepting both cases as int(s, 16) does. -/
def hexVal (c : Nat) : Option Nat :=
  if 48 ≤ c && c ≤ 57 then some (c - 48)
  else if 97 ≤ c && c ≤ 102 then some (c - 87)
  else if 65 ≤ c && c ≤ 70 then some (c - 55)
  else none

/-- The BACKSLASH table of py_scanstring: the eight short escapes. -/
def escMap (e : Nat) : Option Nat :=
  if e = 34 then some 34
  else if e = 92 then some 92
  else if e = 47 then some 47
  else if e = 98 then some 8
  else if e = 102 then some 12
  else if e = 110 then some 10
  else if e = 114 then some 13
  else if e = 116 then some 9
  else none

/-- Prepends a decoded code point to a string parse result. -/
def consFst (c : Nat) : Except PyErr (Str × Str) → Except PyErr (Str × Str)
  | .ok (s, r) => .ok (c :: s, r)
  | .error e => .error e

/-- py_scanstring in strict mode, after the opening quote: raw characters up to
the closing quote, short escapes, \uXXXX escapes, an adjacent high-low escaped
surrogate pair recombined into one code point, a lone surrogate kept as is,
and a raw control character rejected. The fuel is structural and any fuel
above the input length works, each step consuming at least one character. -/
def parseStrBody : Nat → Str → Except PyErr (Str × Str)
  | 0, _ => .error .modelFuel
  | f + 1, s =>
    match s with
    | [] => .error .jsonError
    | c :: t =>
      if c = 34 then .ok ([], t)
      else if c = 92 then
        match t with
        | [] => .error .jsonError
        | e :: t1 =>
          if e = 117 then
            match t1 with
            | a :: b :: cc :: d :: t2 =>
              match hexVal a, hexVal b, hexVal cc, hexVal d with
              | some va, some vb, some vc, some vd =>
                let uni := ((va * 16 + vb) * 16 + vc) * 16 + vd
                if 55296 ≤ uni ∧ uni ≤ 56319 then
                  match t2 with
                  | 92 :: 117 :: a2 :: b2 :: c2 :: d2 :: t3 =>
                    match hexVal a2, hexVal b2, hexVal c2, hexVal d2 with
                    | some va2, some vb2, some vc2, some vd2 =>
                      let uni2 := ((va2 * 16 + vb2) * 16 + vc2) * 16 + vd2
                      if 56320 ≤ uni2 ∧ uni2 ≤ 57343 then
                        consFst (65536 + (uni - 55296) * 1024 + (uni2 - 56320))
                          (parseStrBody f t3)
                      else consFst uni (parseStrBody f t2)
                    | _, _, _, _ => .error .jsonError
                  | _ => consFst uni (parseStrBody f t2)
                else consFst uni (parseStrBody f t2)
              | _, _, _, _ => .error .jsonError
            | _ => .error .jsonError
          else
            match escMap e with
            | some ch => consFst ch (parseStrBody f t1)
            | none => .error .jsonError
      else if c < 32 then .error .jsonError
      else consFst c (parseStrBody f t)

/-- The maximal run of decimal digits and the remainder. -/
def digitSpan : Str → Str × Str
  | c :: t => if isDigit c then let p := digitSpan t; (c :: p.1, p.2) else ([], c :: t)
  | [] => ([], [])

/-- Value of a digit run, most significant first. -/
def digitsVal (ds : Str) : Nat := ds.foldl (fun a c => 10 * a + (c - 48)) 0

/-- Whether the remainder starts a fraction part per NUMBER_RE: a dot and a digit. -/
def fracStarts : Str → Bool
  | 46 :: d :: _ => isDigit d
  | _ => false

/-- Whether the remainder starts an exponent part per NUMBER_RE: e or E, an
optional sign, then a digit. -/
def expStarts : Str → Bool
  | 101 :: 43 :: d :: _ => isDigit d
  | 101 :: 45 :: d :: _ => isDigit d
  | 101 :: d :: _ => isDigit d
  | 69 :: 43 :: d :: _ => isDigit d
  | 69 :: 45 :: d :: _ => isDigit d
  | 69 :: d :: _ => isDigit d
  | _ => false

/-- The unsigned integer part of NUMBER_RE: a bare zero, or a nonzero leading
digit and its digit run. A following fraction or exponent part makes the
numeral a float, which is outside the model. -/
def numTail (s : Str) : Except PyErr (Nat × Str) :=
  match s with
  | c :: t =>
    if c = 48 then
      if fracStarts t || expStarts t then .error .floatLimit else .ok (0, t)
    else if isDigit c then
      let p := digitSpan (c :: t)
      if fracStarts p.2 || expStarts p.2 then .error .floatLimit else .ok (digitsVal p.1, p.2)
    else .error .jsonError
  | [] => .error .jsonError

/-- Whether the input starts with the Infinity literal, checked by the
scanner after a minus sign. -/
def infLit : Str → Bool
  | 73 :: 110 :: 102 :: 105 :: 110 :: 105 :: 116 :: 121 :: _ => true
  | _ => false

/-- A numeral at the head of the input: optional minus sign, then the integer
part. The -Infinity literal is a float, outside the model. -/
def parseNum (s : Str) : Except PyErr (Json × Str) :=
  match s with
  | 45 :: t =>
    if infLit t then .error .floatLimit
    else
      match numTail t with
      | .ok (n, r) => .ok (.num (-(n : Int)), r)
      | .error e => .error e
  | t =>
    match numTail t with
    | .ok (n, r) => .ok (.num (n : Int), r)
    | .error e => .error e

/-- Inserting into a Python dict with string keys: an existing key keeps its
position and takes the new value, a new key is appended. -/
def dictInsert {α : Type} : List (Str × α) → Str → α → List (Str × α)
  | [], k, v => [(k, v)]
  | (k0, v0) :: t, k, v =>
    if k0 = k then (k0, v) :: t else (k0, v0) :: dictInsert t k v

/-- Python dict lookup; on a dict built by dictInsert keys are unique, so the
first match is the only one. -/
def dictFind {α : Type} : List (Str × α) → Str → Option α
  | [], _ => none
  | (k0, v) :: t, k => if k0 = k then some v else dictFind t k

/-- The in operator on a dict. -/
def dictHasKey {α : Type} (d : List (Str × α)) (k : Str) : Bool :=
  (dictFind d k).isSome

/-- dict(pairs): fold pairs into a dict, a later duplicate key overriding the
earlier value in place. -/
def dictOfPairs {α : Type} (ps : List (Str × α)) : List (Str × α) :=
  ps.foldl (fun d kv => dictInsert d kv.1 kv.2) []

mutual

/-- The scan_once dispatch of the py_make_scanner scanner. The caller has
already skipped whitespace. Fuel decreases on every nested call; loads
passes enough for any input. -/
def parseVal : Nat → Str → Except PyErr (Json × Str)
  | 0, _ => .error .modelFuel
  | f + 1, s =>
    match s with
    | 34 :: t =>
      match parseStrBody (t.length + 1) t with
      | .ok (cs, r) => .ok (.str cs, r)
      | .error e => .error e
    | 123 :: t =>
      match skipWs t with
      | 125 :: r => .ok (.obj [], r)
      | t1 =>
        match parseMembers f t1 with
        | .ok (ms, r) => .ok (.obj (dictOfPairs ms), r)
        | .error e => .error e
    | 91 :: t =>
      match skipWs t with
      | 93 :: r => .ok (.arr [], r)
      | t1 =>
        match parseItems f t1 with
        | .ok (vs, r) => .ok (.arr vs, r)
        | .error e => .error e
    | 110 :: 117 :: 108 :: 108 :: r => .ok (.null, r)
    | 116 :: 114 :: 117 :: 101 :: r => .ok (.bool true, r)
    | 102 :: 97 :: 108 :: 115 :: 101 :: r => .ok (.bool false, r)
    | 78 :: 97 :: 78 :: _ => .error .floatLimit
    | 73 :: 110 :: 102 :: 105 :: 110 :: 105 :: 116 :: 121 :: _ => .error .floatLimit
    | c :: t => if c = 45 || isDigit c then parseNum (c :: t) else .error .jsonError
    | [] => .error .jsonError

/-- One or more comma separated array elements up to the closing bracket;
the empty array is handled by the caller. -/
def parseItems : Nat → Str → Except PyErr (List Json × Str)
  | 0, _ => .error .modelFuel
  | f + 1, s =>
    match parseVal f s with
    | .error e => .error e
    | .ok (v, r) =>
      match skipWs r with
      | 93 :: r2 => .ok ([v], r2)
      | 44 :: r2 =>
        match parseItems f (skipWs r2) with
        | .ok (vs, r3) => .ok (v :: vs, r3)
        | .error e => .error e
      | _ => .error .jsonError

/-- One or more comma separated object members up to the closing brace; a
member is a quoted key, a colon, and a value. The empty object is handled
by the caller. -/
def parseMembers : Nat → Str → Except PyErr (List (Str × Json) × Str)
  | 0, _ => .error .modelFuel
  | f + 1, s =>
    match s with
    | 34 :: t =>
      match parseStrBody (t.length + 1) t with
      | .error e => .error e
      | .ok (k, r1) =>
        match skipWs r1 with
        | 58 :: r2 =>
          match parseVal f (skipWs r2) with
          | .error e => .error e
          | .ok (v, r3) =>
            match skipWs r3 with
            | 125 :: r4 => .ok ([(k, v)], r4)
            | 44 :: r4 =>
              match parseMembers f (skipWs r4) with
              | .ok (ms, r5) => .ok ((k, v) :: ms, r5)
              | .error e => .error e
            | _ => .error .jsonError
        | _ => .error .jsonError
    | _ => .error .jsonError

end

/-- json.loads: reject a byte order mark, skip leading whitespace, scan one
value, require only whitespace after it. -/
def loads (s : Str) : Except PyErr Json :=
  match s with
  | 65279 :: _ => .error .valueError
  | _ =>
    match parseVal (s.length + 1) (skipWs s) with
    | .error e => .error e
    | .ok (v, r) => if skipWs r = [] then .ok v else .error .jsonError

/-- High surrogate test. -/
def isHi (c : Nat) : Bool := 55296 ≤ c && c ≤ 56319

/-- Low surrogate test. -/
def isLo (c : Nat) : Bool := 56320 ≤ c && c ≤ 57343

/-- No adjacent high-low surrogate code point pair: the decoder merges an
escaped high-low pair back into one supplementary code point, exactly as
CPython does, so only strings without such a pair round trip. -/
def noPair : Str → Bool
  | a :: b :: t => !(isHi a && isLo b) && noPair (b :: t)
  | _ => true

/-- A well-formed Python string: code points in range, no adjacent high-low
surrogate pair. Every well-formed Unicode string qualifies. -/
def wfStr (s : Str) : Bool := s.all (fun c => decide (c < 1114112)) && noPair s

mutual

/-- Well-formed message values: strings well-formed throughout and object
keys unique, as they are in any value a Python dict structure can hold. -/
def wfJ : Json → Bool
  | .null => true
  | .bool _ => true
  | .num _ => true
  | .str s => wfStr s
  | .arr xs => wfJList xs
  | .obj kvs => wfJMembers kvs

def wfJList : List Json → Bool
  | [] => true
  | x :: t => wfJ x && wfJList t

def wfJMembers : List (Str × Json) → Bool
  | [] => true
  | (k, v) :: t => wfStr k && !(dictHasKey t k) && wfJ v && wfJMembers t

end

/-! ## UTF-8, as str.encode and bytes.decode with strict errors -/

/-- UTF-8 bytes of one code point; surrogates and out of range values raise,
as str.encode does. -/
def utf8EncCp (c : Nat) : Except PyErr (List Nat) :=
  if c < 128 then .ok [c]
  else if c < 2048 then .ok [192 + c / 64, 128 + c % 64]
  else if 55296 ≤ c ∧ c ≤ 57343 then .error .unicodeError
  else if c < 65536 then .ok [224 + c / 4096, 128 + c / 64 % 64, 128 + c % 64]
  else if c < 1114112 then
    .ok [240 + c / 262144, 128 + c / 4096 % 64, 128 + c / 64 % 64, 128 + c % 64]
  else .error .unicodeError

/-- str.encode of a whole string, failing on the leftmost bad code point. -/
def utf8Enc : Str → Except PyErr (List Nat)
  | [] => .ok []
  | c :: t =>
    match utf8EncCp c, utf8Enc t with
    | .ok b, .ok bs => .ok (b ++ bs)
    | .error e, _ => .error e
    | _, .error e => .error e

/-- A UTF-8 continuation byte. -/
def isCont (b : Nat) : Bool := 128 ≤ b && b ≤ 191

/-- Prepends a code point to a string decode result. -/
def consCp (c : Nat) : Except PyErr Str → Except PyErr Str
  | .ok s => .ok (c :: s)
  | .error e => .error e

/-- Strict UTF-8 decoding, as bytes.decode: the valid one to four byte
sequences per RFC 3629, rejecting overlong forms, surrogates, values past
0x10ffff, and truncated sequences. The fuel is structural; any fuel above
the input length works. -/
def utf8Dec : Nat → List Nat → Except PyErr Str
  | 0, _ => .error .modelFuel
  | _, [] => .ok []
  | f + 1, b :: t =>
    if b < 128 then consCp b (utf8Dec f t)
    else if 194 ≤ b ∧ b ≤ 223 then
      match t with
      | c1 :: t1 =>
        if isCont c1 then consCp ((b - 192) * 64 + (c1 - 128)) (utf8Dec f t1)
        else .error .unicodeError
      | [] => .error .unicodeError
    else if 224 ≤ b ∧ b ≤ 239 then
      match t with
      | c1 :: c2 :: t2 =>
        if (if b = 224 then 160 ≤ c1 ∧ c1 ≤ 191
            else if b = 237 then 128 ≤ c1 ∧ c1 ≤ 159
            else isCont c1 = true) ∧ isCont c2 = true then
          consCp ((b - 224) * 4096 + (c1 - 128) * 64 + (c2 - 128)) (utf8Dec f t2)
        else .error .unicodeError
      | _ => .error .unicodeError
    else if 240 ≤ b ∧ b ≤ 244 then
      match t with
      | c1 :: c2 :: c3 :: t3 =>
        if (if b = 240 then 144 ≤ c1 ∧ c1 ≤ 191
            else if b = 244 then 128 ≤ c1 ∧ c1 ≤ 143
            else isCont c1 = true) ∧ isCont c2 = true ∧ isCont c3 = true then
          consCp ((b - 240) * 262144 + (c1 - 128) * 4096 + (c2 - 128) * 64 + (c3 - 128))
            (utf8Dec f t3)
        else .error .unicodeError
      | _ => .error .unicodeError
    else .error .unicodeError

/-- bytes.decode with enough fuel for any input. -/
def pyDecode (bs : List Nat) : Except PyErr Str := utf8Dec (bs.length + 1) bs

/-! ## read_response (verify_lsp.py lines 20 to 34) -/

/-- readline on a binary stream: everything up to and including the first
newline byte, or everything to the end of the stream. -/
def readlineB : List Nat → List Nat × List Nat
  | [] => ([], [])
  | b :: t => if b = 10 then ([10], t) else let p := readlineB t; (b :: p.1, p.2)

/-- line.split with a colon and maxsplit one; no colon means the two target
unpacking fails with a ValueError. -/
def splitColon : Str → Option (Str × Str)
  | [] => none
  | c :: t =>
    if c = 58 then some ([], t)
    else
      match splitColon t with
      | some p => some (c :: p.1, p.2)
      | none => none

/-- The characters str.strip removes. The model covers the ASCII whitespace
set; exotic Unicode whitespace is not exercised by any claim. -/
def isPyWs (c : Nat) : Bool := c = 32 || c = 9 || c = 10 || c = 13 || c = 11 || c = 12

/-- str.strip: whitespace removed from both ends. -/
def pyStrip (s : Str) : Str := ((s.dropWhile isPyWs).reverse.dropWhile isPyWs).reverse

/-- Value of a decimal digit run, most significant first. -/
def pyInt (s0 : Str) : Except PyErr Int :=
  match pyStrip s0 with
  | 45 :: t =>
    if t ≠ [] ∧ t.all isDigit then .ok (-(digitsVal t : Int)) else .error .valueError
  | 43 :: t =>
    if t ≠ [] ∧ t.all isDigit then .ok ((digitsVal t : Int)) else .error .valueError
  | t =>
    if t ≠ [] ∧ t.all isDigit then .ok ((digitsVal t : Int)) else .error .valueError

/-- The header loop of read_response: readline, decode, stop on an empty read
(end of stream) or a bare crlf line, otherwise split at the first colon (a
line without one raises ValueError) and store the stripped key and value.
The fuel is structural; any fuel above the byte count works. -/
def readHeaders : Nat → List Nat → List (Str × Str) → Except PyErr (List (Str × Str) × List Nat)
  | 0, _, _ => .error .modelFuel
  | f + 1, s, acc =>
    let p := readlineB s
    match pyDecode p.1 with
    | .error e => .error e
    | .ok line =>
      if line = [] ∨ line = [13, 10] then .ok (acc, p.2)
      else
        match splitColon line with
        | none => .error .valueError
        | some kv => readHeaders f p.2 (dictInsert acc (pyStrip kv.1) (pyStrip kv.2))

/-- The header field name the source looks up, verbatim. -/
def kwContentLength : Str :=
  cl ['C', 'o', 'n', 't', 'e', 'n', 't', '-', 'L', 'e', 'n', 'g', 't', 'h']

/-- BufferedReader.read with a count: a negative count reads to the end of the
stream, otherwise up to count bytes, short only when the stream ends. -/
def readBody (n : Int) (s : List Nat) : List Nat × List Nat :=
  if n < 0 then (s, []) else (s.take n.toNat, s.drop n.toNat)

/-- read_response on the remaining stream bytes: parse the header block; with
no field named exactly Content-Length return None (the stream position after
the headers is the second component); otherwise int() the value, read that
many bytes, decode and json.loads them. -/
def read_response (s : List Nat) : Except PyErr (Option Json × List Nat) :=
  match readHeaders (s.length + 1) s [] with
  | .error e => .error e
  | .ok (headers, s1) =>
    if dictHasKey headers kwContentLength then
      match pyInt ((dictFind headers kwContentLength).getD []) with
      | .error e => .error e
      | .ok n =>
        let body := readBody n s1
        match pyDecode body.1 with
        | .error e => .error e
        | .ok cs =>
          match loads cs with
          | .error e => .error e
          | .ok j => .ok (some j, body.2)
    else .ok (none, s1)

/-! ## send_request (verify_lsp.py lines 6 to 18) -/

def kwJsonrpc : Str := cl ['j', 's', 'o', 'n', 'r', 'p', 'c']
def kwVersionTag : Str := cl ['2', '.', '0']
def kwMethod : Str := cl ['m', 'e', 't', 'h', 'o', 'd']
def kwParams : Str := cl ['p', 'a', 'r', 'a', 'm', 's']
def kwId : Str := cl ['i', 'd']

/-- The content dict of send_request: jsonrpc, method and params always, id
appended only when an identifier was supplied. -/
def JMessage (method : Str) (params : Json) (idOpt : Option Int) : Json :=
  .obj ([(kwJsonrpc, .str kwVersionTag), (kwMethod, .str method), (kwParams, params)] ++
    (match idOpt with
     | some i => [(kwId, .num i)]
     | none => []))

/-- The header block of the wire format: the field name, colon, space, the
decimal byte count, then crlf crlf. -/
def headerCps (n : Nat) : Str := kwContentLength ++ (58 :: 32 :: natDigs n) ++ [13, 10, 13, 10]

/-- send_request: dumps the content dict, prepend the Content-Length header
with len(body), encode the whole message as UTF-8 and write it. The produced
byte list is the observable effect. -/
def send_request (method : Str) (params : Json) (idOpt : Option Int) : Except PyErr (List Nat) :=
  let body := dumps (JMessage method params idOpt)
  utf8Enc (headerCps body.length ++ body)

/-- The frame read_response would consume for a message: header block and
serialized body. For well-formed messages this is exactly what send_request
writes, since the serialized body is pure ASCII. -/
def frameOf (j : Json) : List Nat := headerCps (dumps j).length ++ dumps j

/-! ## The wait loop of main (verify_lsp.py lines 77 to 96) -/

def kwPubDiag : Str :=
  cl ['t', 'e', 'x', 't', 'D', 'o', 'c', 'u', 'm', 'e', 'n', 't', '/',
      'p', 'u', 'b', 'l', 'i', 's', 'h', 'D', 'i', 'a', 'g', 'n', 'o', 's', 't', 'i', 'c', 's']
def kwDiagnostics : Str :=
  cl ['d', 'i', 'a', 'g', 'n', 'o', 's', 't', 'i', 'c', 's']
def kwMessage : Str := cl ['m', 'e', 's', 's', 'a', 'g', 'e']

/-- The expected substring of the first diagnostic message. -/
def kwExpected : Str :=
  cl ['U', 'n', 'k', 'n', 'o', 'w', 'n', ' ', 'w', 'o', 'r', 'd', ':', ' ',
      'H', 'e', 'l', 'l', 'l', 'o']

/-- Python truthiness of a decoded value, as the bare if resp test uses it. -/
def pyTruthy : Json → Bool
  | .null => false
  | .bool b => b
  | .num n => n != 0
  | .str s => !s.isEmpty
  | .arr xs => !xs.isEmpty
  | .obj kvs => !kvs.isEmpty

mutual

/-- Python equality between decoded values: numbers and booleans compare by
value, strings by contents, lists pointwise, dicts by keys and values;
mixed types are unequal. -/
def pyEq : Json → Json → Bool
  | .null, .null => true
  | .bool a, .bool b => a == b
  | .bool a, .num n => (if a then (1 : Int) else 0) == n
  | .num n, .bool a => n == (if a then (1 : Int) else 0)
  | .num a, .num b => a == b
  | .str a, .str b => a == b
  | .arr a, .arr b => pyEqList a b
  | .obj a, .obj b => a.length == b.length && pyEqObj a b
  | _, _ => false

def pyEqList : List Json → List Json → Bool
  | [], [] => true
  | x :: xs, y :: ys => pyEq x y && pyEqList xs ys
  | _, _ => false

def pyEqObj : List (Str × Json) → List (Str × Json) → Bool
  | [], _ => true
  | (k, v) :: t, b =>
    (match dictFind b k with
     | some w => pyEq v w
     | none => false) && pyEqObj t b

end

/-- Whether the needle occurs as a prefix of the haystack. -/
def startsWithS : Str → Str → Bool
  | [], _ => true
  | _ :: _, [] => false
  | a :: as, b :: bs => a == b && startsWithS as bs

/-- The in operator between strings: substring containment. -/
def hasSub (needle : Str) : Str → Bool
  | [] => startsWithS needle []
  | c :: t => startsWithS needle (c :: t) || hasSub needle t

/-- The in operator with a string on the left: key membership in a dict,
element equality in a list, substring in a string, TypeError otherwise. -/
def pyIn (k : Str) : Json → Except PyErr Bool
  | .obj kvs => .ok (dictHasKey kvs k)
  | .arr xs => .ok (xs.any (fun x => pyEq (.str k) x))
  | .str s => .ok (hasSub k s)
  | _ => .error .typeError

/-- Subscripting with a string key: dict lookup with KeyError when absent;
any other receiver raises TypeError. -/
def pySubKey (j : Json) (k : Str) : Except PyErr Json :=
  match j with
  | .obj kvs =>
    match dictFind kvs k with
    | some v => .ok v
    | none => .error .keyError
  | _ => .error .typeError

/-- len() of a decoded value. -/
def pyLen : Json → Except PyErr Nat
  | .str s => .ok s.length
  | .arr xs => .ok xs.length
  | .obj kvs => .ok kvs.length
  | _ => .error .typeError

/-- Subscripting with a numeric index: list indexing with IndexError past the
end; a dict raises KeyError (decoded JSON keys are all strings), anything
else TypeError. A one character string result stands in for string indexing. -/
def pySubIdx (j : Json) (i : Nat) : Except PyErr Json :=
  match j with
  | .arr xs =>
    match xs.get? i with
    | some v => .ok v
    | none => .error .indexError
  | .str s =>
    match s.get? i with
    | some c => .ok (.str [c])
    | none => .error .indexError
  | .obj _ => .error .keyError
  | _ => .error .typeError

/-- The terminal outcomes of main, plus running for a loop still in progress
when a finite trace ends. -/
inductive Outcome : Type where
  | success : Outcome
  | mismatch : Json → Outcome
  | timeout : Outcome
  | running : Outcome
deriving Repr

/-- The body of the wait loop applied to one received message (lines 80 to
92): None and unrecognized messages give no outcome and the loop continues;
a publish diagnostics notification is evaluated, an empty diagnostics list
continues, otherwise the first entry decides success or mismatch. Missing
keys and ill-typed payloads raise. -/
def evalResp : Option Json → Except PyErr (Option Outcome)
  | none => .ok none
  | some r =>
    if pyTruthy r then
      match pyIn kwMethod r with
      | .error e => .error e
      | .ok false => .ok none
      | .ok true =>
        match pySubKey r kwMethod with
        | .error e => .error e
        | .ok m =>
          if pyEq m (.str kwPubDiag) then
            match pySubKey r kwParams with
            | .error e => .error e
            | .ok ps =>
              match pySubKey ps kwDiagnostics with
              | .error e => .error e
              | .ok dg =>
                match pyLen dg with
                | .error e => .error e
                | .ok n =>
                  if n = 0 then .ok none
                  else
                    match pySubIdx dg 0 with
                    | .error e => .error e
                    | .ok first =>
                      match pySubKey first kwMessage with
                      | .error e => .error e
                      | .ok msg =>
                        match pyIn kwExpected msg with
                        | .error e => .error e
                        | .ok true => .ok (some .success)
                        | .ok false => .ok (some (.mismatch msg))
          else .ok none
    else .ok none

/-- The wait loop of main: each iteration reads the clock; from five time
units on, fall out of the loop into the timeout exit, otherwise perform one
read_response and evaluate it. The clock list is the trace of time.time()
minus start_time readings, one per loop condition check; an exhausted trace
means the loop was still running. An error from the receive or the
evaluation propagates uncaught. -/
def waitLoop : List Rat → List Nat → Except PyErr Outcome
  | [], _ => .ok .running
  | e :: clocks, s =>
    if e < 5 then
      match read_response s with
      | .error err => .error err
      | .ok (resp, s1) =>
        match evalResp resp with
        | .error err => .error err
        | .ok none => waitLoop clocks s1
        | .ok (some oc) => .ok oc
    else .ok .timeout

/-- The process exit status each outcome produces (lines 88, 92, 96). -/
def exitCode : Outcome → Option Nat
  | .success => some 0
  | .mismatch _ => some 1
  | .timeout => some 1
  | .running => none

/-- str() of a decoded value as printed in the failure message; a string
prints as itself, which is the only case the claims exercise. -/
def pyStr : Json → Str
  | .str s => s
  | j => dumps j

/-- The report each terminal outcome prints (lines 86, 90, 94). -/
def reportOf : Outcome → Str
  | .success =>
    cl ['S', 'U', 'C', 'C', 'E', 'S', 'S', ':', ' ', 'F', 'o', 'u', 'n', 'd', ' ',
        'e', 'x', 'p', 'e', 'c', 't', 'e', 'd', ' ', 'd', 'i', 'a', 'g', 'n', 'o',
        's', 't', 'i', 'c', '!']
  | .mismatch m =>
    cl ['F', 'A', 'I', 'L', 'U', 'R', 'E', ':', ' ', 'U', 'n', 'e', 'x', 'p', 'e',
        'c', 't', 'e', 'd', ' ', 'd', 'i', 'a', 'g', 'n', 'o', 's', 't', 'i', 'c',
        ' ', 'm', 'e', 's', 's', 'a', 'g', 'e', ':', ' '] ++ pyStr m
  | .timeout =>
    cl ['F', 'A', 'I', 'L', 'U', 'R', 'E', ':', ' ', 'T', 'i', 'm', 'e', 'd', ' ',
        'o', 'u', 't', ' ', 'w', 'a', 'i', 't', 'i', 'n', 'g', ' ', 'f', 'o', 'r',
        ' ', 'd', 'i', 'a', 'g', 'n', 'o', 's', 't', 'i', 'c', 's']
  | .running => []

/-- Whether proc.terminate() runs before the harness exits. The three coded
exits (lines 87, 91, 95) call it; an exception raised inside the loop
propagates out of main, which has no handler or finally block, so the
harness dies without the call; a still running loop has not exited. -/
def terminateAttempted : Except PyErr Outcome → Bool
  | .ok .success => true
  | .ok (.mismatch _) => true
  | .ok .timeout => true
  | .ok .running => false
  | .error _ => false

/-- A header block as bytes: every field rendered as name, colon, value, crlf.
The claims about header handling quantify over blocks through this renderer. -/
def renderHs (hs : List (Str × Str)) : List Nat :=
  hs.flatMap (fun kv => kv.1 ++ 58 :: (kv.2 ++ [13, 10]))

/-- A well-formed header field: ASCII with no newline or carriage return on
either side and no colon in the name, so that one field is one stream line. -/
def wfHeaderKV (kv : Str × Str) : Bool :=
  kv.1.all (fun c => decide (c < 128) && !(c == 58) && !(c == 10) && !(c == 13)) &&
  kv.2.all (fun c => decide (c < 128) && !(c == 10) && !(c == 13))

/-- The dict the header loop builds from a block, keys and values stripped. -/
def headerDict (hs : List (Str × Str)) (acc : List (Str × Str)) : List (Str × Str) :=
  hs.foldl (fun d kv => dictInsert d (pyStrip kv.1) (pyStrip kv.2)) acc

/-- A remainder that cannot extend a numeral: empty, or headed by a character
that is no digit, dot, e or E. Every delimiter dumps places after a value
(comma, closing bracket, closing brace) qualifies. -/
def numDelim : Str → Bool
  | [] => true
  | c :: _ => !(isDigit c || c == 46 || c == 101 || c == 69)

/-- Pairwise distinct keys, as any Python dict has. -/
def keysUniq {α : Type} : List (Str × α) → Bool
  | [] => true
  | (k, _) :: t => !(dictHasKey t k) && keysUniq t

/-- The field name spelled lower case, for the case sensitivity claims. -/
def lcContentLength : Str :=
  cl ['c', 'o', 'n', 't', 'e', 'n', 't', '-', 'l', 'e', 'n', 'g', 't', 'h']

/-- One diagnostic entry carrying only its message text. -/
def diagEntry (msg : Str) : Json := .obj [(kwMessage, .str msg)]

/-- A publish diagnostics notification carrying the given diagnostics list. -/
def diagNotification (diags : List Json) : Json :=
  JMessage kwPubDiag (.obj [(kwDiagnostics, .arr diags)]) none

/-- A stream holding the frames of the given messages back to back. -/
def catFrames (msgs : List Json) : List Nat :=
  msgs.foldr (fun m acc => frameOf m ++ acc) []

/-! ## Digit rendering facts -/

theorem digsAux_zero (f : Nat) : digsAux f 0 = [] := by
  cases f <;> rfl

theorem digsAux_mem {f n c : Nat} (h : c ∈ digsAux f n) : 48 ≤ c ∧ c ≤ 57 := by
  induction f generalizing n with
  | zero => simp [digsAux] at h
  | succ f ih =>
    match n with
    | 0 => simp [digsAux] at h
    | n + 1 =>
      simp only [digsAux] at h
      rcases List.mem_append.mp h with h1 | h1
      · exact ih h1
      · have hc : c = 48 + (n + 1) % 10 := by simpa using h1
        have hm : (n + 1) % 10 < 10 := Nat.mod_lt _ (by omega)
        omega

theorem natDigs_mem {n c : Nat} (h : c ∈ natDigs n) : 48 ≤ c ∧ c ≤ 57 := by
  unfold natDigs at h
  split at h
  · simp at h; omega
  · exact digsAux_mem h

theorem digitsVal_append_one (xs : Str) (d : Nat) :
    digitsVal (xs ++ [d]) = 10 * digitsVal xs + (d - 48) := by
  simp [digitsVal, List.foldl_append]

theorem digsAux_val {f n : Nat} (h0 : 0 < n) (hf : n ≤ f) : digitsVal (digsAux f n) = n := by
  induction f generalizing n with
  | zero => omega
  | succ f ih =>
    match n, h0 with
    | n + 1, _ =>
      simp only [digsAux, digitsVal_append_one]
      by_cases hq : (n + 1) / 10 = 0
      · rw [hq, digsAux_zero]
        simp [digitsVal]
        omega
      · rw [ih (by omega) (by omega)]
        omega

theorem digsAux_head {f n : Nat} (h0 : 0 < n) (hf : n ≤ f) :
    ∃ c t, digsAux f n = c :: t ∧ 49 ≤ c ∧ c ≤ 57 := by
  induction f generalizing n with
  | zero => omega
  | succ f ih =>
    match n, h0 with
    | n + 1, _ =>
      simp only [digsAux]
      by_cases hq : (n + 1) / 10 = 0
      · rw [hq, digsAux_zero]
        refine ⟨48 + (n + 1) % 10, [], by simp, by omega, by omega⟩
      · obtain ⟨c, t, heq, hc1, hc2⟩ := ih (n := (n + 1) / 10) (by omega) (by omega)
        exact ⟨c, t ++ [48 + (n + 1) % 10], by rw [heq]; simp, hc1, hc2⟩

theorem natDigs_val (n : Nat) : digitsVal (natDigs n) = n := by
  unfold natDigs
  split
  · simp [digitsVal]; omega
  · exact digsAux_val (by omega) (by omega)

theorem natDigs_ne_nil (n : Nat) : natDigs n ≠ [] := by
  unfold natDigs
  split
  · simp
  · obtain ⟨c, t, heq, -, -⟩ := digsAux_head (n := n) (f := n) (by omega) (by omega)
    simp [heq]

/-! ## ASCII shape of dumps output -/

theorem hexDig_lt (n : Nat) (h : n < 16) : hexDig n < 128 := by
  unfold hexDig; split <;> omega

theorem uEsc_ascii (n : Nat) : ∀ c ∈ uEsc n, c < 128 := by
  have h16 : ∀ k : Nat, k % 16 < 16 := fun k => Nat.mod_lt _ (by omega)
  intro c hc
  simp only [uEsc, List.mem_cons, List.not_mem_nil, or_false] at hc
  rcases hc with h | h | h | h | h | h <;> subst h <;>
    first
      | omega
      | exact hexDig_lt _ (h16 _)

theorem escCp_ascii (a : Nat) : ∀ c ∈ escCp a, c < 128 := by
  intro c hc
  unfold escCp at hc
  repeat' split at hc
  all_goals
    first
      | (exact uEsc_ascii _ c hc)
      | (rcases List.mem_append.mp hc with h | h <;> exact uEsc_ascii _ c h)
      | (simp only [List.mem_cons, List.not_mem_nil, or_false] at hc; omega)

theorem flatMap_escCp_ascii (s : Str) : ∀ c ∈ s.flatMap escCp, c < 128 := by
  intro c hc
  obtain ⟨a, -, ha⟩ := List.mem_flatMap.mp hc
  exact escCp_ascii a c ha

theorem dumpStr_ascii (s : Str) : ∀ c ∈ dumpStr s, c < 128 := by
  simp only [dumpStr, List.forall_mem_cons]
  refine ⟨by omega, ?_⟩
  intro c hc
  rcases List.mem_append.mp hc with h | h
  · exact flatMap_escCp_ascii s c h
  · simp only [List.mem_singleton] at h; omega

theorem natDigs_ascii (n : Nat) : ∀ c ∈ natDigs n, c < 128 := by
  intro c hc; have := natDigs_mem hc; omega

theorem intDigs_ascii (i : Int) : ∀ c ∈ intDigs i, c < 128 := by
  intro c hc
  unfold intDigs at hc
  split at hc
  · rcases List.mem_cons.mp hc with h | h
    · omega
    · exact natDigs_ascii _ c h
  · exact natDigs_ascii _ c hc

mutual

theorem dumps_ascii : ∀ j, ∀ c ∈ dumps j, c < 128
  | .null => by intro c hc; rw [dumps] at hc; revert c hc; decide
  | .bool true => by intro c hc; rw [dumps] at hc; revert c hc; decide
  | .bool false => by intro c hc; rw [dumps] at hc; revert c hc; decide
  | .num i => by rw [dumps]; exact intDigs_ascii i
  | .str s => by rw [dumps]; exact dumpStr_ascii s
  | .arr xs => by
    rw [dumps]
    intro c hc
    rcases List.mem_cons.mp hc with h | h
    · omega
    · rcases List.mem_append.mp h with h | h
      · exact dumpsList_ascii xs c h
      · simp only [List.mem_singleton] at h; omega
  | .obj kvs => by
    rw [dumps]
    intro c hc
    rcases List.mem_cons.mp hc with h | h
    · omega
    · rcases List.mem_append.mp h with h | h
      · exact dumpsMembers_ascii kvs c h
      · simp only [List.mem_singleton] at h; omega

theorem dumpsList_ascii : ∀ xs, ∀ c ∈ dumpsList xs, c < 128
  | [] => by intro c hc; rw [dumpsList] at hc; simp at hc
  | [x] => by rw [dumpsList]; exact dumps_ascii x
  | x :: y :: t => by
    rw [dumpsList]
    intro c hc
    rcases List.mem_append.mp hc with h | h
    · exact dumps_ascii x c h
    · rcases List.mem_cons.mp h with h | h
      · omega
      · rcases List.mem_cons.mp h with h | h
        · omega
        · exact dumpsList_ascii (y :: t) c h

theorem dumpsMembers_ascii : ∀ kvs, ∀ c ∈ dumpsMembers kvs, c < 128
  | [] => by intro c hc; rw [dumpsMembers] at hc; simp at hc
  | [(k, v)] => by
    rw [dumpsMembers]
    intro c hc
    rcases List.mem_append.mp hc with h | h
    · exact dumpStr_ascii k c h
    · rcases List.mem_cons.mp h with h | h
      · omega
      · rcases List.mem_cons.mp h with h | h
        · omega
        · exact dumps_ascii v c h
  | (k, v) :: m :: t => by
    rw [dumpsMembers]
    intro c hc
    rcases List.mem_append.mp hc with h | h
    · exact dumpStr_ascii k c h
    · rcases List.mem_cons.mp h with h | h
      · omega
      · rcases List.mem_cons.mp h with h | h
        · omega
        · rcases List.mem_append.mp h with h | h
          · exact dumps_ascii v c h
          · rcases List.mem_cons.mp h with h | h
            · omega
            · rcases List.mem_cons.mp h with h | h
              · omega
              · exact dumpsMembers_ascii (m :: t) c h

end

/-! ## UTF-8 is the identity on ASCII -/

theorem utf8EncCp_ascii {c : Nat} (h : c < 128) : utf8EncCp c = .ok [c] := by
  simp [utf8EncCp, h]

theorem utf8Enc_ascii : ∀ s : Str, (∀ c ∈ s, c < 128) → utf8Enc s = .ok s
  | [], _ => rfl
  | c :: t, h => by
    rw [utf8Enc, utf8EncCp_ascii (h c (by simp)), utf8Enc_ascii t (fun x hx => h x (by simp [hx]))]
    rfl

theorem utf8Dec_ascii : ∀ (bs : List Nat) (f : Nat), (∀ b ∈ bs, b < 128) →
    bs.length < f → utf8Dec f bs = .ok bs
  | _, 0, _, hf => by omega
  | [], f + 1, _, _ => rfl
  | b :: t, f + 1, h, hf => by
    have hb : b < 128 := h b (by simp)
    have ht := utf8Dec_ascii t f (fun x hx => h x (by simp [hx])) (by simp at hf; omega)
    simp only [utf8Dec, if_pos hb, ht, consCp]

theorem pyDecode_ascii (bs : List Nat) (h : ∀ b ∈ bs, b < 128) : pyDecode bs = .ok bs :=
  utf8Dec_ascii bs (bs.length + 1) h (by omega)

/-! ## str.strip, str.split and readline -/

theorem dropWhile_append_all {p : Nat → Bool} : ∀ {a b : List Nat},
    (∀ c ∈ a, p c = true) → (a ++ b).dropWhile p = b.dropWhile p
  | [], _, _ => rfl
  | x :: a, b, h => by
    rw [List.cons_append, List.dropWhile_cons, if_pos (h x (by simp)),
      dropWhile_append_all (fun c hc => h c (by simp [hc]))]

theorem dropWhile_append_pos {p : Nat → Bool} : ∀ {a b : List Nat},
    a.dropWhile p ≠ [] → (a ++ b).dropWhile p = a.dropWhile p ++ b
  | [], _, h => absurd rfl h
  | x :: a, b, h => by
    by_cases hx : p x = true
    · rw [List.dropWhile_cons, if_pos hx] at h
      rw [List.cons_append, List.dropWhile_cons, if_pos hx, List.dropWhile_cons, if_pos hx,
        dropWhile_append_pos h]
    · rw [List.cons_append, List.dropWhile_cons, if_neg hx, List.dropWhile_cons, if_neg hx,
        List.cons_append]

theorem dropWhile_all_neg {p : Nat → Bool} {a : List Nat}
    (h : ∀ c ∈ a, p c = false) : a.dropWhile p = a := by
  cases a with
  | nil => rfl
  | cons x a => rw [List.dropWhile_cons, if_neg (by simp [h x (by simp)])]

theorem strip_of_no_ws {s : Str} (h : ∀ c ∈ s, isPyWs c = false) : pyStrip s = s := by
  unfold pyStrip
  rw [dropWhile_all_neg h, dropWhile_all_neg (fun c hc => h c (List.mem_reverse.mp hc)),
    List.reverse_reverse]

theorem strip_append_ws {v w : Str} (hw : ∀ c ∈ w, isPyWs c = true) :
    pyStrip (v ++ w) = pyStrip v := by
  unfold pyStrip
  by_cases hv : v.dropWhile isPyWs = []
  · have hva : ∀ c ∈ v, isPyWs c = true := by
      intro c hc
      simpa using List.dropWhile_eq_nil_iff.mp hv c hc
    rw [dropWhile_append_all hva, hv]
    have hwd : w.dropWhile isPyWs = [] := by
      rw [List.dropWhile_eq_nil_iff]
      intro c hc
      simp [hw c hc]
    rw [hwd]
  · rw [dropWhile_append_pos hv, List.reverse_append,
      dropWhile_append_all (fun c hc => hw c (List.mem_reverse.mp hc))]

theorem splitColon_append : ∀ {k : Str}, (58 : Nat) ∉ k →
    ∀ z, splitColon (k ++ 58 :: z) = some (k, z)
  | [], _, z => by simp [splitColon]
  | c :: k, h, z => by
    have hc : c ≠ 58 := by intro hc; exact h (by simp [hc])
    rw [List.cons_append, splitColon, if_neg hc,
      splitColon_append (fun hm => h (by simp [hm])) z]

theorem readlineB_append : ∀ {x : List Nat}, (10 : Nat) ∉ x →
    ∀ y, readlineB (x ++ 10 :: y) = (x ++ [10], y)
  | [], _, y => by simp [readlineB]
  | b :: x, h, y => by
    have hb : b ≠ 10 := by intro hb; exact h (by simp [hb])
    rw [List.cons_append, readlineB, if_neg hb, readlineB_append (fun hm => h (by simp [hm])) y]
    rfl

/-! ## Dict facts -/

theorem dictFind_insert {α : Type} : ∀ (d : List (Str × α)) (k k' : Str) (v : α),
    dictFind (dictInsert d k v) k' = if k = k' then some v else dictFind d k'
  | [], k, k', v => by simp [dictInsert, dictFind]
  | (k0, v0) :: t, k, k', v => by
    by_cases h0 : k0 = k
    · subst h0
      rw [dictInsert, if_pos rfl]
      by_cases h1 : k0 = k' <;> simp [dictFind, h1]
    · rw [dictInsert, if_neg h0]
      by_cases h1 : k0 = k'
      · subst h1
        have : ¬ k = k0 := fun hx => h0 hx.symm
        simp [dictFind, this]
      · simp [dictFind, h1, dictFind_insert t k k' v]

theorem dictHasKey_insert {α : Type} (d : List (Str × α)) (k k' : Str) (v : α) :
    dictHasKey (dictInsert d k v) k' = (decide (k = k') || dictHasKey d k') := by
  unfold dictHasKey
  rw [dictFind_insert]
  by_cases h : k = k' <;> simp [h]

theorem dictInsert_fresh {α : Type} : ∀ {d : List (Str × α)} {k : Str},
    dictFind d k = none → ∀ v, dictInsert d k v = d ++ [(k, v)]
  | [], k, _, v => rfl
  | (k0, v0) :: t, k, h, v => by
    rw [dictFind] at h
    by_cases h0 : k0 = k
    · simp [if_pos h0] at h
    · rw [if_neg h0] at h
      rw [dictInsert, if_neg h0, dictInsert_fresh h v, List.cons_append]

/-! ## Parsing a rendered header block -/

theorem readHeaders_render : ∀ (hs : List (Str × Str)) (f : Nat) (acc : List (Str × Str))
    (rest : List Nat), hs.all wfHeaderKV = true → hs.length < f →
    readHeaders f (renderHs hs ++ 13 :: 10 :: rest) acc = .ok (headerDict hs acc, rest)
  | [], f, acc, rest, _, hf => by
    match f, hf with
    | g + 1, _ =>
      show readHeaders (g + 1) (renderHs [] ++ 13 :: 10 :: rest) acc = _
      simp [renderHs, headerDict, readHeaders, readlineB, pyDecode, utf8Dec, consCp]
  | (k, v) :: t, f, acc, rest, hwf, hf => by
    match f, hf with
    | g + 1, hfg =>
      rw [List.all_cons, Bool.and_eq_true] at hwf
      obtain ⟨hkv, hall⟩ := hwf
      rw [wfHeaderKV, Bool.and_eq_true, List.all_eq_true, List.all_eq_true] at hkv
      obtain ⟨hk, hv⟩ := hkv
      have hk' : ∀ c ∈ k, c < 128 ∧ c ≠ 58 ∧ c ≠ 10 ∧ c ≠ 13 := by
        intro c hc
        have := hk c hc
        simp only [Bool.and_eq_true, decide_eq_true_eq, Bool.not_eq_true', beq_eq_false_iff_ne,
          ne_eq] at this
        exact ⟨this.1.1.1, this.1.1.2, this.1.2, this.2⟩
      have hv' : ∀ c ∈ v, c < 128 ∧ c ≠ 10 ∧ c ≠ 13 := by
        intro c hc
        have := hv c hc
        simp only [Bool.and_eq_true, decide_eq_true_eq, Bool.not_eq_true', beq_eq_false_iff_ne,
          ne_eq] at this
        exact ⟨this.1.1, this.1.2, this.2⟩
      have h10 : (10 : Nat) ∉ k ++ 58 :: (v ++ [13]) := by
        intro hm
        rcases List.mem_append.mp hm with h | h
        · exact (hk' 10 h).2.2.1 rfl
        · rcases List.mem_cons.mp h with h | h
          · omega
          · rcases List.mem_append.mp h with h | h
            · exact (hv' 10 h).2.1 rfl
            · simp at h
      have hshape : renderHs ((k, v) :: t) ++ 13 :: 10 :: rest
          = (k ++ 58 :: (v ++ [13])) ++ 10 :: (renderHs t ++ 13 :: 10 :: rest) := by
        simp [renderHs, List.flatMap_cons]
      have hline := readlineB_append h10 (renderHs t ++ 13 :: 10 :: rest)
      have hascii : ∀ c ∈ (k ++ 58 :: (v ++ [13])) ++ [10], c < 128 := by
        intro c hc
        rcases List.mem_append.mp hc with h | h
        · rcases List.mem_append.mp h with h | h
          · exact (hk' c h).1
          · rcases List.mem_cons.mp h with h | h
            · omega
            · rcases List.mem_append.mp h with h | h
              · exact (hv' c h).1
              · simp at h; omega
        · simp at h; omega
      have hdec := pyDecode_ascii _ hascii
      have h58 : (58 : Nat) ∈ (k ++ 58 :: (v ++ [13])) ++ [10] := by simp
      have hne1 : (k ++ 58 :: (v ++ [13])) ++ [10] ≠ [] := by
        intro h0; rw [h0] at h58; simp at h58
      have hne2 : (k ++ 58 :: (v ++ [13])) ++ [10] ≠ [13, 10] := by
        intro h0
        rw [h0] at h58
        simp at h58
      have h58k : (58 : Nat) ∉ k := fun hm => (hk' 58 hm).2.1 rfl
      have hsplit : splitColon ((k ++ 58 :: (v ++ [13])) ++ [10]) = some (k, v ++ [13, 10]) := by
        have : (k ++ 58 :: (v ++ [13])) ++ [10] = k ++ 58 :: (v ++ [13, 10]) := by simp
        rw [this, splitColon_append h58k]
      have hstrip : pyStrip (v ++ [13, 10]) = pyStrip v :=
        strip_append_ws (by intro c hc; simp at hc; rcases hc with h | h <;> simp [h, isPyWs])
      rw [hshape, readHeaders]
      simp only [hline, hdec, hsplit, if_neg (not_or.mpr ⟨hne1, hne2⟩)]
      rw [hstrip, readHeaders_render t g _ rest hall (by simp at hfg; omega)]
      rfl

theorem strip_all_digits {s : Str} (h : ∀ c ∈ s, 48 ≤ c ∧ c ≤ 57) : pyStrip s = s :=
  strip_of_no_ws (by intro c hc; have := h c hc; simp [isPyWs]; omega)

theorem pyInt_natDigs (n : Nat) : pyInt (natDigs n) = .ok (n : Int) := by
  have hmem : ∀ c ∈ natDigs n, 48 ≤ c ∧ c ≤ 57 := fun c hc => natDigs_mem hc
  have hs : pyStrip (natDigs n) = natDigs n := strip_all_digits hmem
  have hne := natDigs_ne_nil n
  have hall : (natDigs n).all isDigit = true := by
    rw [List.all_eq_true]
    intro c hc
    have := hmem c hc
    simp [isDigit]
    omega
  obtain ⟨c, t, heq⟩ : ∃ c t, natDigs n = c :: t := by
    cases h : natDigs n with
    | nil => exact absurd h hne
    | cons c t => exact ⟨c, t, rfl⟩
  have hc : 48 ≤ c ∧ c ≤ 57 := hmem c (heq ▸ List.mem_cons_self c t)
  unfold pyInt
  rw [hs, heq]
  have hval : digitsVal (c :: t) = n := heq ▸ natDigs_val n
  split
  · rename_i t' h45
    exfalso
    rw [List.cons.injEq] at h45
    obtain ⟨h1, -⟩ := h45
    omega
  · rename_i t' h43
    exfalso
    rw [List.cons.injEq] at h43
    obtain ⟨h1, -⟩ := h43
    omega
  · rename_i t' hcat
    rw [if_pos ⟨by simp, by rw [← heq]; exact hall⟩]
    rw [hval]

/-! ## The string escape round trip -/

theorem hexVal_hexDig {d : Nat} (h : d < 16) : hexVal (hexDig d) = some d := by
  interval_cases d <;> rfl

theorem hex4_arith {n : Nat} (h : n < 65536) :
    ((n / 4096 % 16 * 16 + n / 256 % 16) * 16 + n / 16 % 16) * 16 + n % 16 = n := by
  omega

theorem wfStr_cons {c : Nat} {s : Str} (h : wfStr (c :: s) = true) :
    c < 1114112 ∧ wfStr s = true := by
  unfold wfStr at h ⊢
  rw [Bool.and_eq_true, List.all_cons, Bool.and_eq_true] at h
  obtain ⟨⟨hc, hall⟩, hnp⟩ := h
  have hnp' : noPair s = true := by
    cases s with
    | nil => rfl
    | cons b t =>
      rw [noPair, Bool.and_eq_true] at hnp
      exact hnp.2
  rw [Bool.and_eq_true]
  exact ⟨by simpa using hc, hall, hnp'⟩

theorem wfStr_pair {c b : Nat} {s : Str} (h : wfStr (c :: b :: s) = true) :
    ¬(isHi c = true ∧ isLo b = true) := by
  unfold wfStr at h
  rw [Bool.and_eq_true] at h
  have hnp := h.2
  rw [noPair, Bool.and_eq_true] at hnp
  intro ⟨h1, h2⟩
  simp [h1, h2] at hnp

/-- Parsing one raw printable character. -/
theorem escStep_raw {c : Nat} (h1 : 32 ≤ c) (h3 : c ≠ 34) (h4 : c ≠ 92)
    (g : Nat) (X : Str) : parseStrBody (g + 1) (c :: X) = consFst c (parseStrBody g X) := by
  simp only [parseStrBody, if_neg h3, if_neg h4, if_neg (by omega : ¬ c < 32)]

/-- Parsing one \uXXXX escape whose value is no high surrogate. -/
theorem escStep_u_plain {n : Nat} (hn : n < 65536) (hni : ¬(55296 ≤ n ∧ n ≤ 56319))
    (g : Nat) (X : Str) :
    parseStrBody (g + 1) (uEsc n ++ X) = consFst n (parseStrBody g X) := by
  have h16 : ∀ k : Nat, k % 16 < 16 := fun k => Nat.mod_lt _ (by omega)
  rw [uEsc]
  simp only [List.cons_append, List.nil_append, parseStrBody,
    hexVal_hexDig (h16 _), hex4_arith hn]
  rw [if_neg hni]
  simp

/-- Parsing one \uXXXX high surrogate escape at the end of the string body:
the peek sees the closing quote, the lone surrogate is kept. -/
theorem escStep_u_hi_quote {n : Nat} (hn : 55296 ≤ n ∧ n ≤ 56319)
    (g : Nat) (r : Str) :
    parseStrBody (g + 1) (uEsc n ++ 34 :: r) = consFst n (parseStrBody g (34 :: r)) := by
  have h16 : ∀ k : Nat, k % 16 < 16 := fun k => Nat.mod_lt _ (by omega)
  rw [uEsc]
  simp only [List.cons_append, List.nil_append, parseStrBody,
    hexVal_hexDig (h16 _), hex4_arith (by omega : n < 65536)]
  rw [if_pos hn]
  simp

/-- Parsing one \uXXXX high surrogate escape followed by a raw character that
is no backslash: no second escape, the lone surrogate is kept. -/
theorem escStep_u_hi_raw {n b : Nat} (hn : 55296 ≤ n ∧ n ≤ 56319) (hb : b ≠ 92)
    (g : Nat) (r : Str) :
    parseStrBody (g + 1) (uEsc n ++ b :: r) = consFst n (parseStrBody g (b :: r)) := by
  have h16 : ∀ k : Nat, k % 16 < 16 := fun k => Nat.mod_lt _ (by omega)
  rw [uEsc]
  simp only [List.cons_append, List.nil_append, parseStrBody,
    hexVal_hexDig (h16 _), hex4_arith (by omega : n < 65536)]
  simp only [if_pos hn]
  rw [if_neg (show ¬((92:Nat) = 34) by decide)]
  simp only [if_true]
  split
  · rename_i heq
    rw [List.cons.injEq] at heq
    exact absurd heq.1 hb
  · rfl

/-- Parsing one \uXXXX high surrogate escape followed by a short escape: the
peek sees backslash but not u, the lone surrogate is kept. -/
theorem escStep_u_hi_esc {n x : Nat} (hn : 55296 ≤ n ∧ n ≤ 56319) (hx : x ≠ 117)
    (g : Nat) (r : Str) :
    parseStrBody (g + 1) (uEsc n ++ 92 :: x :: r) = consFst n (parseStrBody g (92 :: x :: r)) := by
  have h16 : ∀ k : Nat, k % 16 < 16 := fun k => Nat.mod_lt _ (by omega)
  rw [uEsc]
  simp only [List.cons_append, List.nil_append, parseStrBody,
    hexVal_hexDig (h16 _), hex4_arith (by omega : n < 65536)]
  simp only [if_pos hn]
  rw [if_neg (show ¬((92:Nat) = 34) by decide)]
  simp only [if_true]
  split
  · rename_i heq
    rw [List.cons.injEq, List.cons.injEq] at heq
    exact absurd heq.2.1 hx
  · rfl

/-- Parsing one \uXXXX high surrogate escape followed by a \uXXXX escape whose
value is no low surrogate: the pair does not combine, the high surrogate is
kept lone and the second escape is left for the next step. -/
theorem escStep_u_hi_u {n m : Nat} (hn : 55296 ≤ n ∧ n ≤ 56319) (hm : m < 65536)
    (hml : ¬(56320 ≤ m ∧ m ≤ 57343)) (g : Nat) (r : Str) :
    parseStrBody (g + 1) (uEsc n ++ (uEsc m ++ r))
      = consFst n (parseStrBody g (uEsc m ++ r)) := by
  have h16 : ∀ k : Nat, k % 16 < 16 := fun k => Nat.mod_lt _ (by omega)
  rw [uEsc, uEsc]
  simp only [List.cons_append, List.nil_append, parseStrBody,
    hexVal_hexDig (h16 _), hex4_arith (by omega : n < 65536), hex4_arith hm]
  rw [if_pos hn, if_neg hml]
  rw [if_neg (show ¬((92:Nat) = 34) by decide)]
  simp only [if_true, uEsc, List.cons_append, List.nil_append]

/-- Parsing a high surrogate escape followed by a low surrogate escape: the
two recombine into one supplementary code point. -/
theorem escStep_u_pair {n m : Nat} (hn : 55296 ≤ n ∧ n ≤ 56319)
    (hm : 56320 ≤ m ∧ m ≤ 57343) (g : Nat) (r : Str) :
    parseStrBody (g + 1) (uEsc n ++ (uEsc m ++ r))
      = consFst (65536 + (n - 55296) * 1024 + (m - 56320)) (parseStrBody g r) := by
  have h16 : ∀ k : Nat, k % 16 < 16 := fun k => Nat.mod_lt _ (by omega)
  rw [uEsc, uEsc]
  simp only [List.cons_append, List.nil_append, parseStrBody,
    hexVal_hexDig (h16 _), hex4_arith (by omega : n < 65536), hex4_arith (by omega : m < 65536)]
  rw [if_pos hn, if_pos hm]
  rw [if_neg (show ¬((92:Nat) = 34) by decide)]
  simp only [if_true]

/-- Parsing the escape pair of a supplementary plane code point: the two
escapes recombine into the original code point. -/
theorem escStep_pair {c : Nat} (h1 : 65536 ≤ c) (h2 : c < 1114112) (g : Nat) (X : Str) :
    parseStrBody (g + 1) (escCp c ++ X) = consFst c (parseStrBody g X) := by
  have hesc : escCp c = uEsc (55296 + (c - 65536) / 1024) ++ uEsc (56320 + (c - 65536) % 1024) := by
    unfold escCp
    rw [if_neg (by omega), if_neg (by intro hcon; omega), if_neg (by omega),
      if_neg (by intro hcon; omega), if_neg (by omega), if_neg (by intro hcon; omega),
      if_neg (by omega), if_neg (by intro hcon; omega), if_neg (by omega),
      if_neg (by intro hcon; omega)]
  have hhi : 55296 ≤ 55296 + (c - 65536) / 1024 ∧ 55296 + (c - 65536) / 1024 ≤ 56319 := by
    have : (c - 65536) / 1024 ≤ 1023 := by omega
    omega
  have hlo : 56320 ≤ 56320 + (c - 65536) % 1024 ∧ 56320 + (c - 65536) % 1024 ≤ 57343 := by
    have := Nat.mod_lt (c - 65536) (by omega : 0 < 1024)
    omega
  rw [hesc, List.append_assoc, escStep_u_pair hhi hlo]
  have harith : 65536 + (55296 + (c - 65536) / 1024 - 55296) * 1024
      + (56320 + (c - 65536) % 1024 - 56320) = c := by omega
  rw [harith]

theorem escCp_len_pos (c : Nat) : 1 ≤ (escCp c).length := by
  unfold escCp
  repeat' split
  all_goals simp [uEsc]

theorem escCp_print {c : Nat} (h1 : 32 ≤ c) (h2 : c < 127) (h3 : c ≠ 34) (h4 : c ≠ 92) :
    escCp c = [c] := by
  unfold escCp
  rw [if_neg h3, if_neg h4, if_neg (by omega), if_neg (by intro hcon; omega),
    if_neg (by omega), if_neg (by intro hcon; omega), if_neg (by omega),
    if_neg (by intro hcon; omega), if_pos h2]

theorem escCp_ctrl {c : Nat} (h : c < 32) (h8 : c ≠ 8) (h9 : c ≠ 9) (h10 : c ≠ 10)
    (h12 : c ≠ 12) (h13 : c ≠ 13) : escCp c = uEsc c := by
  unfold escCp
  rw [if_neg (by omega), if_neg (by omega), if_neg h8, if_neg h9, if_neg h10,
    if_neg h12, if_neg h13, if_pos h]

theorem escCp_bmp {c : Nat} (h1 : 127 ≤ c) (h2 : c < 65536) : escCp c = uEsc c := by
  unfold escCp
  rw [if_neg (by omega), if_neg (by intro hcon; omega), if_neg (by omega),
    if_neg (by intro hcon; omega), if_neg (by omega), if_neg (by intro hcon; omega),
    if_neg (by omega), if_neg (by intro hcon; omega), if_neg (by omega), if_pos h2]

/-- A lone high surrogate escape followed by the escaped form of any
well-formed remainder that does not begin with a low surrogate: the lone
surrogate is kept and parsing continues on the remainder. -/
theorem escStep_u_hi_all {c : Nat} (hhi : 55296 ≤ c ∧ c ≤ 56319) (g : Nat) :
    ∀ (s2 : Str) (rest : Str), wfStr s2 = true →
    (∀ b ∈ s2.head?, ¬(56320 ≤ b ∧ b ≤ 57343)) →
    parseStrBody (g + 1) (uEsc c ++ (s2.flatMap escCp ++ 34 :: rest))
      = consFst c (parseStrBody g (s2.flatMap escCp ++ 34 :: rest))
  | [], rest, _, _ => by
    simp only [List.flatMap_nil, List.nil_append]
    exact escStep_u_hi_quote hhi g rest
  | b :: s3, rest, hwf2, hnl => by
    have hb1 : b < 1114112 := (wfStr_cons hwf2).1
    have hblo : ¬(56320 ≤ b ∧ b ≤ 57343) := hnl b rfl
    rw [List.flatMap_cons, List.append_assoc]
    by_cases hb34 : b = 34
    · subst hb34
      rw [show escCp 34 = [92, 34] from rfl]
      simp only [List.cons_append, List.nil_append]
      exact escStep_u_hi_esc hhi (by omega) g _
    by_cases hb92 : b = 92
    · subst hb92
      rw [show escCp 92 = [92, 92] from rfl]
      simp only [List.cons_append, List.nil_append]
      exact escStep_u_hi_esc hhi (by omega) g _
    by_cases hb8 : b = 8
    · subst hb8
      rw [show escCp 8 = [92, 98] from rfl]
      simp only [List.cons_append, List.nil_append]
      exact escStep_u_hi_esc hhi (by omega) g _
    by_cases hb9 : b = 9
    · subst hb9
      rw [show escCp 9 = [92, 116] from rfl]
      simp only [List.cons_append, List.nil_append]
      exact escStep_u_hi_esc hhi (by omega) g _
    by_cases hb10 : b = 10
    · subst hb10
      rw [show escCp 10 = [92, 110] from rfl]
      simp only [List.cons_append, List.nil_append]
      exact escStep_u_hi_esc hhi (by omega) g _
    by_cases hb12 : b = 12
    · subst hb12
      rw [show escCp 12 = [92, 102] from rfl]
      simp only [List.cons_append, List.nil_append]
      exact escStep_u_hi_esc hhi (by omega) g _
    by_cases hb13 : b = 13
    · subst hb13
      rw [show escCp 13 = [92, 114] from rfl]
      simp only [List.cons_append, List.nil_append]
      exact escStep_u_hi_esc hhi (by omega) g _
    by_cases hctl : b < 32
    · rw [escCp_ctrl hctl hb8 hb9 hb10 hb12 hb13]
      exact escStep_u_hi_u hhi (by omega) (by omega) g _
    by_cases hpr : b < 127
    · rw [escCp_print (by omega) hpr hb34 hb92, List.singleton_append]
      exact escStep_u_hi_raw hhi hb92 g _
    by_cases hbig : 65536 ≤ b
    · have hesc : escCp b = uEsc (55296 + (b - 65536) / 1024)
          ++ uEsc (56320 + (b - 65536) % 1024) := by
        unfold escCp
        rw [if_neg (by intro hcon; omega), if_neg (by omega), if_neg (by intro hcon; omega),
          if_neg (by omega), if_neg (by intro hcon; omega), if_neg (by omega),
          if_neg (by intro hcon; omega), if_neg (by omega), if_neg (by intro hcon; omega),
          if_neg (by omega)]
      have hdiv : (b - 65536) / 1024 ≤ 1023 := by omega
      rw [hesc, List.append_assoc]
      exact escStep_u_hi_u hhi (by omega) (by omega) g _
    · rw [escCp_bmp (by omega) (by omega)]
      exact escStep_u_hi_u hhi (by omega) hblo g _

/-- The string body round trip: parsing the escaped contents of a well-formed
string recovers it exactly, leaving the input after the closing quote. -/
theorem parseStr_rt : ∀ (s : Str) (f : Nat) (rest : Str),
    wfStr s = true → (s.flatMap escCp).length < f →
    parseStrBody f (s.flatMap escCp ++ 34 :: rest) = .ok (s, rest)
  | [], f, rest, _, hlen => by
    match f, hlen with
    | g + 1, _ => simp [parseStrBody]
  | c :: s2, f, rest, hwf, hlen => by
    obtain ⟨hc, hwf2⟩ := wfStr_cons hwf
    match f, hlen with
    | g + 1, hlen =>
      have hlen2 : (s2.flatMap escCp).length < g := by
        rw [List.flatMap_cons, List.length_append] at hlen
        have := escCp_len_pos c
        omega
      have IH := parseStr_rt s2 g rest hwf2 hlen2
      rw [List.flatMap_cons, List.append_assoc]
      by_cases h34 : c = 34
      · subst h34
        rw [show escCp 34 = [92, 34] from rfl]
        simp only [List.cons_append, List.nil_append]
        have hstep : ∀ Y : Str, parseStrBody (g + 1) (92 :: 34 :: Y)
            = consFst 34 (parseStrBody g Y) := fun Y => rfl
        rw [hstep, IH]
        rfl
      by_cases h92 : c = 92
      · subst h92
        rw [show escCp 92 = [92, 92] from rfl]
        simp only [List.cons_append, List.nil_append]
        have hstep : ∀ Y : Str, parseStrBody (g + 1) (92 :: 92 :: Y)
            = consFst 92 (parseStrBody g Y) := fun Y => rfl
        rw [hstep, IH]
        rfl
      by_cases h8 : c = 8
      · subst h8
        rw [show escCp 8 = [92, 98] from rfl]
        simp only [List.cons_append, List.nil_append]
        have hstep : ∀ Y : Str, parseStrBody (g + 1) (92 :: 98 :: Y)
            = consFst 8 (parseStrBody g Y) := fun Y => rfl
        rw [hstep, IH]
        rfl
      by_cases h9 : c = 9
      · subst h9
        rw [show escCp 9 = [92, 116] from rfl]
        simp only [List.cons_append, List.nil_append]
        have hstep : ∀ Y : Str, parseStrBody (g + 1) (92 :: 116 :: Y)
            = consFst 9 (parseStrBody g Y) := fun Y => rfl
        rw [hstep, IH]
        rfl
      by_cases h10 : c = 10
      · subst h10
        rw [show escCp 10 = [92, 110] from rfl]
        simp only [List.cons_append, List.nil_append]
        have hstep : ∀ Y : Str, parseStrBody (g + 1) (92 :: 110 :: Y)
            = consFst 10 (parseStrBody g Y) := fun Y => rfl
        rw [hstep, IH]
        rfl
      by_cases h12 : c = 12
      · subst h12
        rw [show escCp 12 = [92, 102] from rfl]
        simp only [List.cons_append, List.nil_append]
        have hstep : ∀ Y : Str, parseStrBody (g + 1) (92 :: 102 :: Y)
            = consFst 12 (parseStrBody g Y) := fun Y => rfl
        rw [hstep, IH]
        rfl
      by_cases h13 : c = 13
      · subst h13
        rw [show escCp 13 = [92, 114] from rfl]
        simp only [List.cons_append, List.nil_append]
        have hstep : ∀ Y : Str, parseStrBody (g + 1) (92 :: 114 :: Y)
            = consFst 13 (parseStrBody g Y) := fun Y => rfl
        rw [hstep, IH]
        rfl
      by_cases hctl : c < 32
      · rw [escCp_ctrl hctl h8 h9 h10 h12 h13, escStep_u_plain (by omega) (by omega), IH]
        rfl
      by_cases hpr : c < 127
      · rw [escCp_print (by omega) hpr h34 h92, List.singleton_append,
          escStep_raw (by omega) h34 h92, IH]
        rfl
      by_cases hbig : 65536 ≤ c
      · have heq : escCp c ++ (s2.flatMap escCp ++ 34 :: rest)
            = escCp c ++ (s2.flatMap escCp ++ 34 :: rest) := rfl
        rw [escStep_pair hbig hc, IH]
        rfl
      by_cases hhi : 55296 ≤ c ∧ c ≤ 56319
      · have hnl : ∀ b ∈ s2.head?, ¬(56320 ≤ b ∧ b ≤ 57343) := by
          cases s2 with
          | nil => intro b hb; simp at hb
          | cons b s3 =>
            intro b0 hb0
            simp only [List.head?_cons, Option.mem_def, Option.some.injEq] at hb0
            subst hb0
            have hp := wfStr_pair hwf
            intro hb
            exact hp ⟨by simp [isHi]; omega, by simp [isLo]; omega⟩
        rw [escCp_bmp (by omega) (by omega), escStep_u_hi_all hhi g s2 rest hwf2 hnl, IH]
        rfl
      · rw [escCp_bmp (by omega) (by omega), escStep_u_plain (by omega) (by omega), IH]
        rfl

/-! ## The number round trip -/

theorem numDelim_head {c : Nat} {t : Str} (h : numDelim (c :: t) = true) :
    isDigit c = false ∧ c ≠ 46 ∧ c ≠ 101 ∧ c ≠ 69 := by
  rw [numDelim] at h
  simp only [Bool.not_eq_true', Bool.or_eq_false_iff, beq_eq_false_iff_ne, ne_eq] at h
  exact ⟨h.1.1.1, h.1.1.2, h.1.2, h.2⟩

theorem digitSpan_stop {r : Str} (h : numDelim r = true) : digitSpan r = ([], r) := by
  cases r with
  | nil => rfl
  | cons c t =>
    have := (numDelim_head h).1
    rw [digitSpan, if_neg (by simp [this])]

theorem digitSpan_run : ∀ {ds : Str}, (∀ c ∈ ds, isDigit c = true) → ∀ {r : Str},
    digitSpan r = ([], r) → digitSpan (ds ++ r) = (ds, r)
  | [], _, r, hr => by simpa using hr
  | c :: ds, h, r, hr => by
    rw [List.cons_append, digitSpan, if_pos (h c (by simp)),
      digitSpan_run (fun x hx => h x (by simp [hx])) hr]

theorem fracStarts_delim {r : Str} (h : numDelim r = true) : fracStarts r = false := by
  rw [fracStarts.eq_def]
  split
  · exact absurd rfl (numDelim_head h).2.1
  · rfl

theorem expStarts_delim {r : Str} (h : numDelim r = true) : expStarts r = false := by
  rw [expStarts.eq_def]
  split
  · exact absurd rfl (numDelim_head h).2.2.1
  · exact absurd rfl (numDelim_head h).2.2.1
  · exact absurd rfl (numDelim_head h).2.2.1
  · exact absurd rfl (numDelim_head h).2.2.2
  · exact absurd rfl (numDelim_head h).2.2.2
  · exact absurd rfl (numDelim_head h).2.2.2
  · rfl

theorem infLit_not73 {c : Nat} (hc : c ≠ 73) (t : Str) : infLit (c :: t) = false := by
  rw [infLit.eq_def]
  split
  · rename_i heq
    rw [List.cons.injEq] at heq
    exact absurd heq.1 hc
  · rfl

theorem numTail_natDigs (n : Nat) {r : Str} (hr : numDelim r = true) :
    numTail (natDigs n ++ r) = .ok (n, r) := by
  by_cases h0 : n = 0
  · subst h0
    rw [show natDigs 0 = [48] from rfl, List.singleton_append, numTail, if_pos rfl,
      fracStarts_delim hr, expStarts_delim hr]
    rfl
  · obtain ⟨c, t, heq, hc1, hc2⟩ := digsAux_head (n := n) (f := n) (by omega) (by omega)
    have hnd : natDigs n = c :: t := by rw [natDigs, if_neg h0, heq]
    have hmem : ∀ x ∈ natDigs n, isDigit x = true := by
      intro x hx
      have := natDigs_mem hx
      simp [isDigit]
      omega
    have hspan : digitSpan (natDigs n ++ r) = (natDigs n, r) :=
      digitSpan_run hmem (digitSpan_stop hr)
    rw [hnd] at hspan
    rw [hnd, List.cons_append, numTail, if_neg (by omega), if_pos (by simp [isDigit]; omega)]
    simp only [← List.cons_append, hspan]
    rw [fracStarts_delim hr, expStarts_delim hr]
    simp only [Bool.or_self]
    rw [if_neg (by simp)]
    rw [show digitsVal (c :: t) = n from by rw [← hnd]; exact natDigs_val n]

theorem natDigs_head_not45 (n : Nat) : ∃ c t, natDigs n = c :: t ∧ 48 ≤ c ∧ c ≤ 57 := by
  by_cases h0 : n = 0
  · exact ⟨48, [], by simp [h0, natDigs], by omega, by omega⟩
  · obtain ⟨c, t, heq, hc1, hc2⟩ := digsAux_head (n := n) (f := n) (by omega) (by omega)
    exact ⟨c, t, by rw [natDigs, if_neg h0, heq], by omega, by omega⟩

theorem parseNum_intDigs (i : Int) {r : Str} (hr : numDelim r = true) :
    parseNum (intDigs i ++ r) = .ok (.num i, r) := by
  by_cases hneg : i < 0
  · rw [intDigs, if_pos hneg]
    obtain ⟨c, t, heq, hc1, hc2⟩ := natDigs_head_not45 i.natAbs
    have hstep : ∀ X : Str, parseNum (45 :: X)
        = (if infLit X then .error .floatLimit
           else
             match numTail X with
             | .ok (n, r) => .ok (.num (-(n : Int)), r)
             | .error e => .error e) := fun X => rfl
    rw [List.cons_append, hstep, heq, List.cons_append, infLit_not73 (by omega)]
    rw [if_neg (by simp), ← List.cons_append, ← heq, numTail_natDigs i.natAbs hr]
    have habs : -((i.natAbs : Nat) : Int) = i := by omega
    show Except.ok (Json.num (-((i.natAbs : Nat) : Int)), r) = Except.ok (Json.num i, r)
    rw [habs]
  · rw [intDigs, if_neg hneg]
    obtain ⟨c, t, heq, hc1, hc2⟩ := natDigs_head_not45 i.natAbs
    rw [heq, List.cons_append, parseNum.eq_def]
    split
    · rename_i t2 heq2
      rw [List.cons.injEq] at heq2
      exact absurd heq2.1 (by omega)
    · rw [← List.cons_append, ← heq, numTail_natDigs i.natAbs hr]
      have habs : ((i.natAbs : Nat) : Int) = i := by omega
      show Except.ok (Json.num ((i.natAbs : Nat) : Int), r) = Except.ok (Json.num i, r)
      rw [habs]

/-! ## Heads of serialized values, and whitespace -/

theorem skipWs_cons_not {c : Nat} (h : isWs c = false) (t : Str) : skipWs (c :: t) = c :: t := by
  rw [skipWs, if_neg (by simp [h])]

theorem skipWs_cons_ws {c : Nat} (h : isWs c = true) (t : Str) : skipWs (c :: t) = skipWs t := by
  rw [skipWs, if_pos h]

theorem dumps_head (j : Json) : ∃ c t, dumps j = c :: t ∧ isWs c = false
    ∧ c ≠ 93 ∧ c ≠ 125 ∧ c ≠ 44 := by
  cases j with
  | null => exact ⟨110, _, rfl, by decide, by decide, by decide, by decide⟩
  | bool b =>
    cases b with
    | true => exact ⟨116, _, rfl, by decide, by decide, by decide, by decide⟩
    | false => exact ⟨102, _, rfl, by decide, by decide, by decide, by decide⟩
  | str s => exact ⟨34, _, rfl, by decide, by decide, by decide, by decide⟩
  | arr xs => exact ⟨91, _, rfl, by decide, by decide, by decide, by decide⟩
  | obj kvs => exact ⟨123, _, rfl, by decide, by decide, by decide, by decide⟩
  | num i =>
    by_cases hneg : i < 0
    · refine ⟨45, natDigs i.natAbs, ?_, by decide, by decide, by decide, by decide⟩
      rw [dumps, intDigs, if_pos hneg]
    · obtain ⟨c, t, heq, hc1, hc2⟩ := natDigs_head_not45 i.natAbs
      refine ⟨c, t, ?_, by simp [isWs]; omega, by omega, by omega, by omega⟩
      rw [dumps, intDigs, if_neg hneg, heq]

theorem skipWs_dumps (j : Json) (x : Str) : skipWs (dumps j ++ x) = dumps j ++ x := by
  obtain ⟨c, t, heq, hws, -, -, -⟩ := dumps_head j
  rw [heq, List.cons_append, skipWs_cons_not hws]

theorem dumpsList_head (x : Json) (xs : List Json) :
    ∃ c t, dumpsList (x :: xs) = c :: t ∧ isWs c = false ∧ c ≠ 93 ∧ c ≠ 125 ∧ c ≠ 44 := by
  obtain ⟨c, t, heq, h1, h2, h3, h4⟩ := dumps_head x
  cases xs with
  | nil => exact ⟨c, t, by rw [dumpsList, heq], h1, h2, h3, h4⟩
  | cons y ys =>
    exact ⟨c, t ++ (44 :: 32 :: dumpsList (y :: ys)),
      by rw [dumpsList, heq, List.cons_append], h1, h2, h3, h4⟩

theorem dumpsMembers_head (kv : Str × Json) (ms : List (Str × Json)) :
    ∃ t, dumpsMembers (kv :: ms) = 34 :: t := by
  obtain ⟨k, v⟩ := kv
  cases ms with
  | nil => exact ⟨_, by rw [dumpsMembers, dumpStr, List.cons_append]⟩
  | cons m t2 => exact ⟨_, by rw [dumpsMembers, dumpStr, List.cons_append]⟩

/-! ## Unique keys and the dict identity -/

theorem dictFind_eq_none {α : Type} : ∀ (d : List (Str × α)) (k : Str),
    dictFind d k = none ↔ ∀ kv ∈ d, kv.1 ≠ k
  | [], k => by simp [dictFind]
  | (k0, v0) :: t, k => by
    rw [dictFind]
    by_cases h0 : k0 = k
    · rw [if_pos h0]
      simp only [List.forall_mem_cons]
      constructor
      · intro h; exact absurd h (by simp)
      · intro h; exact absurd h0 h.1
    · rw [if_neg h0]
      rw [dictFind_eq_none t k]
      simp only [List.forall_mem_cons]
      constructor
      · intro h; exact ⟨h0, h⟩
      · intro h; exact h.2

theorem dictFind_append {α : Type} : ∀ (a b : List (Str × α)) (k : Str),
    dictFind (a ++ b) k
      = (match dictFind a k with
         | some v => some v
         | none => dictFind b k)
  | [], b, k => by simp [dictFind]
  | (k0, v0) :: t, b, k => by
    rw [List.cons_append, dictFind, dictFind]
    by_cases h0 : k0 = k
    · rw [if_pos h0, if_pos h0]
    · rw [if_neg h0, if_neg h0, dictFind_append t b k]

theorem foldl_dictInsert_append {α : Type} : ∀ (l acc : List (Str × α)),
    (∀ kv ∈ l, dictFind acc kv.1 = none) → keysUniq l = true →
    l.foldl (fun d kv => dictInsert d kv.1 kv.2) acc = acc ++ l
  | [], acc, _, _ => by simp
  | (k, v) :: t, acc, hfresh, huniq => by
    rw [keysUniq, Bool.and_eq_true, Bool.not_eq_true'] at huniq
    obtain ⟨hnk, huniq⟩ := huniq
    have hnone : dictFind t k = none := by
      unfold dictHasKey at hnk
      cases h : dictFind t k with
      | none => rfl
      | some v2 => rw [h] at hnk; simp at hnk
    have hins : dictInsert acc k v = acc ++ [(k, v)] :=
      dictInsert_fresh (hfresh (k, v) (by simp)) v
    have hfresh2 : ∀ kv ∈ t, dictFind (acc ++ [(k, v)]) kv.1 = none := by
      intro kv2 hkv2
      rw [dictFind_append, hfresh kv2 (by simp [hkv2])]
      have hne : kv2.1 ≠ k := (dictFind_eq_none t k).mp hnone kv2 hkv2
      rw [dictFind, if_neg (fun hx => hne hx.symm)]
      rfl
    rw [List.foldl_cons]
    show List.foldl _ (dictInsert acc k v) t = _
    rw [hins, foldl_dictInsert_append t (acc ++ [(k, v)]) hfresh2 huniq,
      List.append_assoc, List.singleton_append]

theorem dictOfPairs_id {α : Type} (l : List (Str × α)) (h : keysUniq l = true) :
    dictOfPairs l = l := by
  unfold dictOfPairs
  rw [foldl_dictInsert_append l [] (fun kv _ => rfl) h, List.nil_append]

theorem wfJMembers_keysUniq : ∀ {kvs : List (Str × Json)},
    wfJMembers kvs = true → keysUniq kvs = true
  | [], _ => rfl
  | (k, v) :: t, h => by
    rw [wfJMembers] at h
    simp only [Bool.and_eq_true] at h
    rw [keysUniq, Bool.and_eq_true]
    exact ⟨h.1.1.2, wfJMembers_keysUniq h.2⟩

theorem wfJMembers_parts {k : Str} {v : Json} {t : List (Str × Json)}
    (h : wfJMembers ((k, v) :: t) = true) :
    wfStr k = true ∧ wfJ v = true ∧ wfJMembers t = true := by
  rw [wfJMembers] at h
  simp only [Bool.and_eq_true] at h
  exact ⟨h.1.1.1, h.1.2, h.2⟩

theorem wfJList_parts {x : Json} {xs : List Json} (h : wfJList (x :: xs) = true) :
    wfJ x = true ∧ wfJList xs = true := by
  rw [wfJList] at h
  simp only [Bool.and_eq_true] at h
  exact h

/-! ## Dispatch into the numeral scanner -/

theorem parseVal_num_dispatch {c : Nat} (h : c = 45 ∨ (48 ≤ c ∧ c ≤ 57)) (f : Nat) (t : Str) :
    parseVal (f + 1) (c :: t) = parseNum (c :: t) := by
  rcases h with h | h
  · subst h; rfl
  · obtain ⟨h1, h2⟩ := h
    interval_cases c <;> rfl

/-! ## One step unfoldings of the scanner (definitional) -/

theorem parseVal_str_step (g : Nat) (T : Str) :
    parseVal (g + 1) (34 :: T)
      = (match parseStrBody (T.length + 1) T with
         | .ok (cs, r) => .ok (.str cs, r)
         | .error e => .error e) := rfl

theorem parseVal_obj_step (g : Nat) (T : Str) :
    parseVal (g + 1) (123 :: T)
      = (match skipWs T with
         | 125 :: r => .ok (.obj [], r)
         | t1 =>
           match parseMembers g t1 with
           | .ok (ms, r) => .ok (.obj (dictOfPairs ms), r)
           | .error e => .error e) := rfl

theorem parseVal_arr_step (g : Nat) (T : Str) :
    parseVal (g + 1) (91 :: T)
      = (match skipWs T with
         | 93 :: r => .ok (.arr [], r)
         | t1 =>
           match parseItems g t1 with
           | .ok (vs, r) => .ok (.arr vs, r)
           | .error e => .error e) := rfl

theorem parseItems_step (g : Nat) (s : Str) :
    parseItems (g + 1) s
      = (match parseVal g s with
         | .error e => .error e
         | .ok (v, r) =>
           match skipWs r with
           | 93 :: r2 => .ok ([v], r2)
           | 44 :: r2 =>
             match parseItems g (skipWs r2) with
             | .ok (vs, r3) => .ok (v :: vs, r3)
             | .error e => .error e
           | _ => .error .jsonError) := rfl

theorem parseMembers_step (g : Nat) (s : Str) :
    parseMembers (g + 1) s
      = (match s with
         | 34 :: t =>
           match parseStrBody (t.length + 1) t with
           | .error e => .error e
           | .ok (k, r1) =>
             match skipWs r1 with
             | 58 :: r2 =>
               match parseVal g (skipWs r2) with
               | .error e => .error e
               | .ok (v, r3) =>
                 match skipWs r3 with
                 | 125 :: r4 => .ok ([(k, v)], r4)
                 | 44 :: r4 =>
                   match parseMembers g (skipWs r4) with
                   | .ok (ms, r5) => .ok ((k, v) :: ms, r5)
                   | .error e => .error e
                 | _ => .error .jsonError
             | _ => .error .jsonError
         | _ => .error .jsonError) := rfl

/-! ## The value round trip -/

mutual

theorem rt_val : ∀ (j : Json) (f : Nat) (rest : Str),
    wfJ j = true → (dumps j).length < f → numDelim rest = true →
    parseVal f (dumps j ++ rest) = .ok (j, rest)
  | .null, f, rest, _, hlen, _ => by
    match f, hlen with
    | g + 1, _ => rfl
  | .bool true, f, rest, _, hlen, _ => by
    match f, hlen with
    | g + 1, _ => rfl
  | .bool false, f, rest, _, hlen, _ => by
    match f, hlen with
    | g + 1, _ => rfl
  | .num i, f, rest, _, hlen, hrest => by
    match f, hlen with
    | g + 1, hlen =>
      have hd : ∃ c t, intDigs i = c :: t ∧ (c = 45 ∨ (48 ≤ c ∧ c ≤ 57)) := by
        by_cases hneg : i < 0
        · exact ⟨45, natDigs i.natAbs, by rw [intDigs, if_pos hneg], Or.inl rfl⟩
        · obtain ⟨c, t, heq, hc1, hc2⟩ := natDigs_head_not45 i.natAbs
          exact ⟨c, t, by rw [intDigs, if_neg hneg, heq], Or.inr ⟨hc1, hc2⟩⟩
      obtain ⟨c, t, heq, hdisp⟩ := hd
      have hd2 : dumps (.num i) = c :: t := by rw [dumps, heq]
      rw [hd2, List.cons_append, parseVal_num_dispatch hdisp, ← List.cons_append, ← heq]
      exact parseNum_intDigs i hrest
  | .str s2, f, rest, hwf, hlen, _ => by
    match f, hlen with
    | g + 1, hlen =>
      have harg : dumps (.str s2) ++ rest = 34 :: (s2.flatMap escCp ++ 34 :: rest) := by
        rw [show dumps (.str s2) = 34 :: (s2.flatMap escCp ++ [34]) from rfl]
        simp [List.append_assoc]
      rw [harg, parseVal_str_step,
        parseStr_rt s2 _ rest hwf (by simp [List.length_append]; omega)]
  | .arr [], f, rest, _, hlen, _ => by
    match f, hlen with
    | g + 1, _ => rfl
  | .arr (x :: xs), f, rest, hwf, hlen, hrest => by
    match f, hlen with
    | g + 1, hlen =>
      have harg : dumps (.arr (x :: xs)) ++ rest
          = 91 :: (dumpsList (x :: xs) ++ 93 :: rest) := by
        rw [show dumps (.arr (x :: xs)) = 91 :: (dumpsList (x :: xs) ++ [93]) from rfl]
        simp [List.append_assoc]
      obtain ⟨c, t, heq, hws, h93, -, -⟩ := dumpsList_head x xs
      have hlen2 : (dumpsList (x :: xs)).length + 1 < g := by
        have hL : (dumps (.arr (x :: xs))).length = (dumpsList (x :: xs)).length + 2 := by
          rw [show dumps (.arr (x :: xs)) = 91 :: (dumpsList (x :: xs) ++ [93]) from rfl]
          simp
        omega
      have hitems := rt_items x xs g rest hwf hlen2
      rw [harg, parseVal_arr_step, heq, List.cons_append, skipWs_cons_not hws]
      split
      · rename_i r2 heq2
        rw [List.cons.injEq] at heq2
        exact absurd heq2.1 h93
      · rw [← List.cons_append, ← heq, hitems]
  | .obj [], f, rest, _, hlen, _ => by
    match f, hlen with
    | g + 1, _ => rfl
  | .obj (kv :: ms), f, rest, hwf, hlen, hrest => by
    match f, hlen with
    | g + 1, hlen =>
      have harg : dumps (.obj (kv :: ms)) ++ rest
          = 123 :: (dumpsMembers (kv :: ms) ++ 125 :: rest) := by
        rw [show dumps (.obj (kv :: ms)) = 123 :: (dumpsMembers (kv :: ms) ++ [125]) from rfl]
        simp [List.append_assoc]
      obtain ⟨t, heq⟩ := dumpsMembers_head kv ms
      have hlen2 : (dumpsMembers (kv :: ms)).length + 1 < g := by
        have hL : (dumps (.obj (kv :: ms))).length = (dumpsMembers (kv :: ms)).length + 2 := by
          rw [show dumps (.obj (kv :: ms)) = 123 :: (dumpsMembers (kv :: ms) ++ [125]) from rfl]
          simp
        omega
      have hmem := rt_members kv ms g rest hwf hlen2
      rw [harg, parseVal_obj_step, heq, List.cons_append, skipWs_cons_not (by decide)]
      split
      · rename_i r2 heq2
        rw [List.cons.injEq] at heq2
        exact absurd heq2.1 (by decide)
      · rw [← List.cons_append, ← heq, hmem]
        show Except.ok (Json.obj (dictOfPairs (kv :: ms)), rest)
          = Except.ok (Json.obj (kv :: ms), rest)
        rw [dictOfPairs_id _ (wfJMembers_keysUniq hwf)]
  termination_by j _ _ _ _ _ => sizeOf j

theorem rt_items : ∀ (x : Json) (xs : List Json) (g : Nat) (rest : Str),
    wfJList (x :: xs) = true → (dumpsList (x :: xs)).length + 1 < g →
    parseItems g (dumpsList (x :: xs) ++ 93 :: rest) = .ok (x :: xs, rest)
  | x, [], g, rest, hwf, hlen => by
    match g, hlen with
    | g2 + 1, hlen =>
      obtain ⟨hwx, -⟩ := wfJList_parts hwf
      have hone : dumpsList [x] = dumps x := rfl
      have hval := rt_val x g2 (93 :: rest) hwx
        (by rw [hone] at hlen; simp at hlen; omega) rfl
      rw [hone, parseItems_step, hval]
      rfl
  | x, y :: t2, g, rest, hwf, hlen => by
    match g, hlen with
    | g2 + 1, hlen =>
      obtain ⟨hwx, hwrest⟩ := wfJList_parts hwf
      have hlist : dumpsList (x :: y :: t2) = dumps x ++ (44 :: 32 :: dumpsList (y :: t2)) := rfl
      have hlens : (dumpsList (x :: y :: t2)).length
          = (dumps x).length + 2 + (dumpsList (y :: t2)).length := by
        rw [hlist]; simp; omega
      have hval := rt_val x g2 (44 :: 32 :: (dumpsList (y :: t2) ++ 93 :: rest)) hwx
        (by omega) rfl
      have hitems := rt_items y t2 g2 rest hwrest (by omega)
      obtain ⟨c, t, heq, hws, -, -, -⟩ := dumpsList_head y t2
      have harg : dumpsList (x :: y :: t2) ++ 93 :: rest
          = dumps x ++ (44 :: 32 :: (dumpsList (y :: t2) ++ 93 :: rest)) := by
        rw [hlist]; simp [List.append_assoc]
      have hskip : skipWs (32 :: (dumpsList (y :: t2) ++ 93 :: rest))
          = dumpsList (y :: t2) ++ 93 :: rest := by
        rw [skipWs_cons_ws (by decide), heq, List.cons_append, skipWs_cons_not hws]
      have hsk44 : skipWs (44 :: 32 :: (dumpsList (y :: t2) ++ 93 :: rest))
          = 44 :: 32 :: (dumpsList (y :: t2) ++ 93 :: rest) := by
        apply skipWs_cons_not; decide
      rw [harg, parseItems_step, hval]
      simp only [hsk44, hskip, hitems]
  termination_by x xs _ _ _ _ => sizeOf x + sizeOf xs

theorem rt_members : ∀ (kv : Str × Json) (ms : List (Str × Json)) (g : Nat) (rest : Str),
    wfJMembers (kv :: ms) = true → (dumpsMembers (kv :: ms)).length + 1 < g →
    parseMembers g (dumpsMembers (kv :: ms) ++ 125 :: rest) = .ok (kv :: ms, rest)
  | (k, v), [], g, rest, hwf, hlen => by
    match g, hlen with
    | g2 + 1, hlen =>
      obtain ⟨hwk, hwv, -⟩ := wfJMembers_parts hwf
      have hone : dumpsMembers [(k, v)] = dumpStr k ++ (58 :: 32 :: dumps v) := rfl
      have hlens : (dumpsMembers [(k, v)]).length
          = (k.flatMap escCp).length + 2 + 2 + (dumps v).length := by
        rw [hone, dumpStr]; simp; omega
      have harg : dumpsMembers [(k, v)] ++ 125 :: rest
          = 34 :: (k.flatMap escCp ++ 34 :: (58 :: 32 :: (dumps v ++ 125 :: rest))) := by
        rw [hone, dumpStr]; simp [List.append_assoc]
      have hstr := parseStr_rt k
        ((k.flatMap escCp ++ 34 :: (58 :: 32 :: (dumps v ++ 125 :: rest))).length + 1)
        (58 :: 32 :: (dumps v ++ 125 :: rest)) hwk (by simp [List.length_append]; omega)
      have hskip : skipWs (32 :: (dumps v ++ 125 :: rest)) = dumps v ++ 125 :: rest := by
        rw [skipWs_cons_ws (by decide), skipWs_dumps]
      have hsk58 : skipWs (58 :: 32 :: (dumps v ++ 125 :: rest))
          = 58 :: 32 :: (dumps v ++ 125 :: rest) := by
        apply skipWs_cons_not; decide
      have hsk125 : skipWs (125 :: rest) = 125 :: rest := by
        apply skipWs_cons_not; decide
      have hval := rt_val v g2 (125 :: rest) hwv (by omega) rfl
      rw [harg, parseMembers_step]
      simp only [hstr, hsk58, hskip, hval, hsk125]
  | (k, v), m :: t3, g, rest, hwf, hlen => by
    match g, hlen with
    | g2 + 1, hlen =>
      obtain ⟨hwk, hwv, hwrest⟩ := wfJMembers_parts hwf
      have hcons : dumpsMembers ((k, v) :: m :: t3)
          = dumpStr k ++ (58 :: 32 :: (dumps v ++ (44 :: 32 :: dumpsMembers (m :: t3)))) := rfl
      have hlens : (dumpsMembers ((k, v) :: m :: t3)).length
          = (k.flatMap escCp).length + 2 + 2 + (dumps v).length + 2
            + (dumpsMembers (m :: t3)).length := by
        rw [hcons, dumpStr]; simp; omega
      have harg : dumpsMembers ((k, v) :: m :: t3) ++ 125 :: rest
          = 34 :: (k.flatMap escCp ++ 34 :: (58 :: 32 :: (dumps v
              ++ (44 :: 32 :: (dumpsMembers (m :: t3) ++ 125 :: rest))))) := by
        rw [hcons, dumpStr]; simp [List.append_assoc]
      have hstr := parseStr_rt k
        ((k.flatMap escCp ++ 34 :: (58 :: 32 :: (dumps v
            ++ (44 :: 32 :: (dumpsMembers (m :: t3) ++ 125 :: rest))))).length + 1)
        (58 :: 32 :: (dumps v ++ (44 :: 32 :: (dumpsMembers (m :: t3) ++ 125 :: rest))))
        hwk (by simp [List.length_append]; omega)
      have hskip : skipWs (32 :: (dumps v ++ (44 :: 32 :: (dumpsMembers (m :: t3)
          ++ 125 :: rest)))) = dumps v ++ (44 :: 32 :: (dumpsMembers (m :: t3)
          ++ 125 :: rest)) := by
        rw [skipWs_cons_ws (by decide), skipWs_dumps]
      have hsk58 : skipWs (58 :: 32 :: (dumps v ++ (44 :: 32 :: (dumpsMembers (m :: t3)
          ++ 125 :: rest)))) = 58 :: 32 :: (dumps v ++ (44 :: 32 :: (dumpsMembers (m :: t3)
          ++ 125 :: rest))) := by
        apply skipWs_cons_not; decide
      have hsk44 : skipWs (44 :: 32 :: (dumpsMembers (m :: t3) ++ 125 :: rest))
          = 44 :: 32 :: (dumpsMembers (m :: t3) ++ 125 :: rest) := by
        apply skipWs_cons_not; decide
      have hval := rt_val v g2 (44 :: 32 :: (dumpsMembers (m :: t3) ++ 125 :: rest)) hwv
        (by omega) rfl
      obtain ⟨t4, heq4⟩ := dumpsMembers_head m t3
      have hskip2 : skipWs (32 :: (dumpsMembers (m :: t3) ++ 125 :: rest))
          = dumpsMembers (m :: t3) ++ 125 :: rest := by
        rw [skipWs_cons_ws (by decide), heq4, List.cons_append, skipWs_cons_not (by decide)]
      have hmem := rt_members m t3 g2 rest hwrest (by omega)
      rw [harg, parseMembers_step]
      simp only [hstr, hsk58, hskip, hval, hsk44, hskip2, hmem]
  termination_by kv ms _ _ _ _ => sizeOf kv + sizeOf ms

end

/-- The whole codec round trip: json.loads inverts json.dumps on every
well-formed value. -/
theorem loads_dumps {j : Json} (h : wfJ j = true) : loads (dumps j) = .ok j := by
  obtain ⟨c, t, heq, hws, -, -, -⟩ := dumps_head j
  have hasc : c < 128 := dumps_ascii j c (heq ▸ List.mem_cons_self c t)
  rw [loads.eq_def]
  split
  · rename_i tail heq2
    rw [heq, List.cons.injEq] at heq2
    omega
  · have hskip : skipWs (dumps j) = dumps j := by
      rw [heq, skipWs_cons_not hws]
    have hval := rt_val j ((dumps j).length + 1) [] h (by omega) rfl
    rw [List.append_nil] at hval
    rw [hskip, hval]
    rfl

/-! ## The frame round trip: send_request output through read_response -/

theorem headerCps_ascii (n : Nat) : ∀ c ∈ headerCps n, c < 128 := by
  have hk : ∀ c ∈ kwContentLength, c < 128 := by
    intro c hc
    have h2 : kwContentLength.all (fun c => decide (c < 128)) = true := by decide
    simpa using List.all_eq_true.mp h2 c hc
  intro c hc
  rw [headerCps] at hc
  rcases List.mem_append.mp hc with h1 | h2
  · rcases List.mem_append.mp h1 with h3 | h4
    · exact hk c h3
    · rcases List.mem_cons.mp h4 with h5 | h6
      · omega
      · rcases List.mem_cons.mp h6 with h7 | h8
        · omega
        · have := natDigs_mem h8; omega
  · simp at h2; omega

/-- send_request writes exactly the frame of its message: the encode step is
the identity because header and serialized body are pure ASCII. -/
theorem send_request_eq (method : Str) (params : Json) (idOpt : Option Int) :
    send_request method params idOpt = .ok (frameOf (JMessage method params idOpt)) := by
  show utf8Enc (headerCps (dumps (JMessage method params idOpt)).length
      ++ dumps (JMessage method params idOpt)) = _
  exact utf8Enc_ascii _ (by
    intro c hc
    rcases List.mem_append.mp hc with h1 | h2
    · exact headerCps_ascii _ c h1
    · exact dumps_ascii _ c h2)

theorem read_response_frame {j : Json} (h : wfJ j = true) (rest : List Nat) :
    read_response (frameOf j ++ rest) = .ok (some j, rest) := by
  have hs0 : frameOf j ++ rest
      = renderHs [(kwContentLength, 32 :: natDigs (dumps j).length)]
        ++ 13 :: 10 :: (dumps j ++ rest) := by
    simp [frameOf, headerCps, renderHs, List.append_assoc]
  have hwfh : [(kwContentLength, 32 :: natDigs (dumps j).length)].all wfHeaderKV = true := by
    rw [List.all_cons, List.all_nil, Bool.and_true, wfHeaderKV, Bool.and_eq_true]
    refine ⟨?_, ?_⟩
    · show (kwContentLength.all
        fun c => decide (c < 128) && !(c == 58) && !(c == 10) && !(c == 13)) = true
      decide
    rw [List.all_eq_true]
    intro c hc
    rcases List.mem_cons.mp hc with h32 | hd
    · subst h32; simp
    · have := natDigs_mem hd
      simp only [Bool.and_eq_true, decide_eq_true_eq, Bool.not_eq_true', beq_eq_false_iff_ne,
        ne_eq]
      omega
  have hfuel : [(kwContentLength, 32 :: natDigs (dumps j).length)].length
      < (frameOf j ++ rest).length + 1 := by
    simp [frameOf, headerCps, kwContentLength, cl]
  have hrh := readHeaders_render [(kwContentLength, 32 :: natDigs (dumps j).length)]
    ((frameOf j ++ rest).length + 1) [] (dumps j ++ rest) hwfh hfuel
  rw [← hs0] at hrh
  have hstripk : pyStrip kwContentLength = kwContentLength :=
    strip_of_no_ws (by decide)
  have hstrip32 : pyStrip (32 :: natDigs (dumps j).length) = natDigs (dumps j).length := by
    have hdig : ∀ c ∈ natDigs (dumps j).length, isPyWs c = false := fun c hc => by
      have := natDigs_mem hc; simp [isPyWs]; omega
    rw [pyStrip, List.dropWhile_cons, if_pos (by decide), dropWhile_all_neg hdig,
      dropWhile_all_neg (fun c hc => hdig c (List.mem_reverse.mp hc)), List.reverse_reverse]
  have hdict : headerDict [(kwContentLength, 32 :: natDigs (dumps j).length)] []
      = [(kwContentLength, natDigs (dumps j).length)] := by
    rw [headerDict]
    simp only [List.foldl_cons, List.foldl_nil]
    rw [hstripk, hstrip32]
    rfl
  rw [hdict] at hrh
  have hbody : readBody ((dumps j).length : Int) (dumps j ++ rest) = (dumps j, rest) := by
    rw [readBody, if_neg (by omega)]
    show ((dumps j ++ rest).take (dumps j).length, (dumps j ++ rest).drop (dumps j).length)
      = (dumps j, rest)
    rw [List.take_left, List.drop_left]
  rw [read_response.eq_def, hrh]
  simp only [dictHasKey, dictFind, if_pos rfl, Option.isSome_some, if_true, Option.getD_some,
    pyInt_natDigs, hbody, pyDecode_ascii (dumps j) (dumps_ascii j), loads_dumps h]

/-! ## Header blocks in general position -/

theorem renderHs_length : ∀ hs : List (Str × Str), hs.length ≤ (renderHs hs).length
  | [] => Nat.le_refl 0
  | kv :: t => by
    have ih := renderHs_length t
    have hr : renderHs (kv :: t) = (kv.1 ++ 58 :: (kv.2 ++ [13, 10])) ++ renderHs t := rfl
    rw [hr]
    simp only [List.length_cons, List.length_append]
    omega

theorem read_response_header (N : Nat) (s1 : List Nat) :
    read_response (headerCps N ++ s1)
      = (match pyDecode (s1.take N) with
         | .error e => .error e
         | .ok cs =>
           match loads cs with
           | .error e => .error e
           | .ok j => .ok (some j, s1.drop N)) := by
  have hs0 : headerCps N ++ s1
      = renderHs [(kwContentLength, 32 :: natDigs N)] ++ 13 :: 10 :: s1 := by
    simp [headerCps, renderHs, List.append_assoc]
  have hwfh : [(kwContentLength, 32 :: natDigs N)].all wfHeaderKV = true := by
    rw [List.all_cons, List.all_nil, Bool.and_true, wfHeaderKV, Bool.and_eq_true]
    refine ⟨?_, ?_⟩
    · show (kwContentLength.all
        fun c => decide (c < 128) && !(c == 58) && !(c == 10) && !(c == 13)) = true
      decide
    rw [List.all_eq_true]
    intro c hc
    rcases List.mem_cons.mp hc with h32 | hd
    · subst h32; simp
    · have := natDigs_mem hd
      simp only [Bool.and_eq_true, decide_eq_true_eq, Bool.not_eq_true', beq_eq_false_iff_ne,
        ne_eq]
      omega
  have hfuel : [(kwContentLength, 32 :: natDigs N)].length
      < (headerCps N ++ s1).length + 1 := by
    simp [headerCps, kwContentLength, cl]
  have hrh := readHeaders_render [(kwContentLength, 32 :: natDigs N)]
    ((headerCps N ++ s1).length + 1) [] s1 hwfh hfuel
  rw [← hs0] at hrh
  have hstripk : pyStrip kwContentLength = kwContentLength :=
    strip_of_no_ws (by decide)
  have hstrip32 : pyStrip (32 :: natDigs N) = natDigs N := by
    have hdig : ∀ c ∈ natDigs N, isPyWs c = false := fun c hc => by
      have := natDigs_mem hc; simp [isPyWs]; omega
    rw [pyStrip, List.dropWhile_cons, if_pos (by decide), dropWhile_all_neg hdig,
      dropWhile_all_neg (fun c hc => hdig c (List.mem_reverse.mp hc)), List.reverse_reverse]
  have hdict : headerDict [(kwContentLength, 32 :: natDigs N)] []
      = [(kwContentLength, natDigs N)] := by
    rw [headerDict]
    simp only [List.foldl_cons, List.foldl_nil]
    rw [hstripk, hstrip32]
    rfl
  rw [hdict] at hrh
  have hbody : readBody (N : Nat) s1 = (s1.take N, s1.drop N) := by
    rw [readBody, if_neg (by omega)]
    rfl
  rw [read_response.eq_def, hrh]
  simp only [dictHasKey, dictFind, if_pos rfl, Option.isSome_some, if_true, Option.getD_some,
    pyInt_natDigs, hbody]

/-! ## Well-formedness of the messages the harness builds -/

theorem wfJ_JMessage (method : Str) (params : Json) (idOpt : Option Int)
    (hm : wfStr method = true) (hp : wfJ params = true) :
    wfJ (JMessage method params idOpt) = true := by
  cases idOpt with
  | none =>
    simp [JMessage, wfJ, wfJMembers, dictHasKey, dictFind, hm, hp,
      kwJsonrpc, kwMethod, kwParams, kwVersionTag, cl]
    decide
  | some i =>
    simp [JMessage, wfJ, wfJMembers, dictHasKey, dictFind, hm, hp,
      kwJsonrpc, kwMethod, kwParams, kwId, kwVersionTag, cl]
    decide

theorem wfJ_diagNotification (ds : List Json) (hds : wfJ (.arr ds) = true) :
    wfJ (diagNotification ds) = true := by
  apply wfJ_JMessage
  · decide
  · have h1 : wfStr kwDiagnostics = true := by decide
    simp [wfJ, wfJMembers, dictHasKey, dictFind, h1]
    simp [wfJ] at hds
    exact hds

theorem wfJ_diagEntry_cons (msg : Str) (ds : List Json)
    (hm : wfStr msg = true) (hds : wfJ (.arr ds) = true) :
    wfJ (.arr (diagEntry msg :: ds)) = true := by
  have h1 : wfStr kwMessage = true := by decide
  simp [wfJ] at hds
  simp [wfJ, wfJList, diagEntry, wfJMembers, dictHasKey, dictFind, h1, hm, hds]

/-! ## The wait loop on diagnostics notifications -/

theorem evalResp_diag_empty : evalResp (some (diagNotification [])) = .ok none := rfl

theorem evalResp_diag_cons (msg : Str) (diags : List Json) :
    evalResp (some (diagNotification (diagEntry msg :: diags)))
      = .ok (some (if hasSub kwExpected msg then Outcome.success
                   else Outcome.mismatch (.str msg))) := by
  have hstep : evalResp (some (diagNotification (diagEntry msg :: diags)))
      = (match (Except.ok (hasSub kwExpected msg) : Except PyErr Bool) with
         | .error e => .error e
         | .ok true => .ok (some Outcome.success)
         | .ok false => .ok (some (Outcome.mismatch (.str msg)))) := rfl
  rw [hstep]
  cases h : hasSub kwExpected msg <;> simp [h]

theorem waitLoop_quiet : ∀ (clocks : List Rat) (msgs : List Json) (more : List Rat),
    (∀ m ∈ msgs, wfJ m = true) → (∀ m ∈ msgs, evalResp (some m) = .ok none) →
    (∀ x ∈ clocks, x < 5) → clocks.length = msgs.length →
    waitLoop (clocks ++ more) (catFrames msgs) = waitLoop more []
  | [], msgs, more, _, _, _, hlen => by
    have hnil : msgs = [] := List.length_eq_zero.mp hlen.symm
    subst hnil
    rfl
  | e :: ct, msgs, more, hw, hq, hlt, hlen => by
    match msgs, hlen with
    | [], hlen => simp at hlen
    | m :: mt, hlen =>
      have he : e < 5 := hlt e (by simp)
      have hr := read_response_frame (hw m (by simp)) (catFrames mt)
      have hcat : catFrames (m :: mt) = frameOf m ++ catFrames mt := rfl
      have hqm := hq m (by simp)
      have ih := waitLoop_quiet ct mt more (fun x hx => hw x (by simp [hx]))
        (fun x hx => hq x (by simp [hx])) (fun x hx => hlt x (by simp [hx]))
        (by simpa using hlen)
      rw [List.cons_append, hcat]
      simp only [waitLoop, if_pos he, hr, hqm, ih]

/-! ## The claims -/

/-- C1, counterexample: a block whose only length field is spelled
content-length, followed by a well-formed two byte body, makes read_response
return the no body signal with the body bytes unconsumed, while the same
block spelled Content-Length parses the body; the lookup is not case
insensitive. -/
theorem c1_lowercase_header_ignored :
    read_response (lcContentLength ++ 58 :: 32 :: 50 :: 13 :: 10 :: 13 :: 10 :: [123, 125])
      = .ok (none, [123, 125]) ∧
    read_response (kwContentLength ++ 58 :: 32 :: 50 :: 13 :: 10 :: 13 :: 10 :: [123, 125])
      = .ok (some (.obj []), []) := ⟨rfl, rfl⟩

/-- C1: the receive operation locates the body length field by a case
sensitive exact match on the stripped field name: any well-formed header
block whose dictionary has no key spelled exactly Content-Length — including
blocks that carry the field under a different capitalisation — yields the no
body signal. -/
theorem c1_read_response_case_sensitive (hs : List (Str × Str)) (rest : List Nat)
    (hwf : hs.all wfHeaderKV = true)
    (habs : dictHasKey (headerDict hs []) kwContentLength = false) :
    read_response (renderHs hs ++ 13 :: 10 :: rest) = .ok (none, rest) := by
  have hfuel : hs.length < (renderHs hs ++ 13 :: 10 :: rest).length + 1 := by
    have := renderHs_length hs
    simp only [List.length_append, List.length_cons]
    omega
  have hrh := readHeaders_render hs ((renderHs hs ++ 13 :: 10 :: rest).length + 1)
    [] rest hwf hfuel
  rw [read_response.eq_def, hrh]
  simp [habs]

theorem c1_case_sensitive_witness :
    ([(lcContentLength, [32, 50])].all wfHeaderKV = true) ∧
    (dictHasKey (headerDict [(lcContentLength, [32, 50])] []) kwContentLength = false) ∧
    read_response (renderHs [(lcContentLength, [32, 50])] ++ 13 :: 10 :: [123, 125])
      = .ok (none, [123, 125]) :=
  ⟨by decide, by decide,
   c1_read_response_case_sensitive [(lcContentLength, [32, 50])] [123, 125]
     (by decide) (by decide)⟩

/-- C2: for every method, params and optional id, the written frame is the
Content-Length header line carrying exactly the byte count of the UTF-8
encoded serialized body, the blank line, then that body. -/
theorem c2_content_length_exact (method : Str) (params : Json) (idOpt : Option Int) :
    ∃ bodyBytes : List Nat,
      utf8Enc (dumps (JMessage method params idOpt)) = .ok bodyBytes ∧
      send_request method params idOpt
        = .ok (headerCps bodyBytes.length ++ bodyBytes) := by
  refine ⟨dumps (JMessage method params idOpt), utf8Enc_ascii _ (dumps_ascii _), ?_⟩
  exact send_request_eq method params idOpt

/-- C3, counterexample: a frame declaring Content-Length 3 whose stream holds
only the two bytes 12 is not answered with an end of stream signal: the
receive operation parses the bytes that did arrive and returns the number 12,
a value the peer never sent. -/
theorem c3_short_read_parses_prefix :
    read_response (kwContentLength ++ 58 :: 32 :: 51 :: 13 :: 10 :: 13 :: 10 :: [49, 50])
      = .ok (some (.num 12), []) := rfl

/-- C3: when the declared length matches, the decode path reconstructs the
original value exactly and consumes exactly the declared bytes; when the
stream holds fewer bytes than declared, the receive operation does not
report an end of stream condition but parses whatever arrived, returning
json.loads of the received prefix. -/
theorem c3_declared_length (j : Json) (rest : List Nat) (bs : List Nat) (N : Nat)
    (hj : wfJ j = true) (hbs : bs.length ≤ N) (hascii : ∀ b ∈ bs, b < 128) :
    read_response (frameOf j ++ rest) = .ok (some j, rest) ∧
    read_response (headerCps N ++ bs) = (loads bs).map (fun v => (some v, [])) := by
  refine ⟨read_response_frame hj rest, ?_⟩
  rw [read_response_header, List.take_of_length_le hbs, List.drop_eq_nil_of_le hbs,
    pyDecode_ascii bs hascii]
  cases h : loads bs <;> simp [h, Except.map]

theorem c3_declared_length_witness :
    wfJ (.num 7) = true ∧ ([49, 50] : List Nat).length ≤ 3 ∧
    (∀ b ∈ ([49, 50] : List Nat), b < 128) ∧
    (read_response (frameOf (.num 7) ++ [99]) = .ok (some (.num 7), [99]) ∧
     read_response (headerCps 3 ++ [49, 50])
       = (loads [49, 50]).map (fun v => (some v, []))) :=
  ⟨by decide, by decide, by decide,
   c3_declared_length (.num 7) [99] [49, 50] 3 (by decide) (by decide) (by decide)⟩

/-- C4, counterexample: at end of stream the receive operation returns the
same None signal as a block without the length field, and the driver keeps
looping on it: after one such receive the loop is still running, and with a
clock trace passing five units it falls out as a timeout instead of stopping
at the first end of stream. -/
theorem c4_eof_keeps_looping :
    read_response [] = .ok (none, []) ∧
    waitLoop [0] [] = .ok .running ∧
    waitLoop [0, 1, 7] [] = .ok .timeout := ⟨rfl, rfl, rfl⟩

/-- C4: an exhausted stream produces the no body signal, not a distinct end
of stream signal, and the driver never treats it as terminal: on an empty
stream the wait loop runs through its whole clock trace, ending in timeout
exactly when some reading reaches five, and otherwise still running. -/
theorem c4_eof_not_terminal (clocks : List Rat) :
    read_response [] = .ok (none, []) ∧
    waitLoop clocks []
      = (if clocks.all (fun e => decide (e < 5)) then Except.ok Outcome.running
         else Except.ok Outcome.timeout) := by
  refine ⟨rfl, ?_⟩
  induction clocks with
  | nil => rfl
  | cons e t ih =>
    by_cases he : e < 5
    · simp only [waitLoop, if_pos he]
      show waitLoop t [] = _
      rw [ih]
      simp [he]
    · simp only [waitLoop, if_neg he]
      simp [List.all_cons, he]

/-- C5, counterexample: a message whose method consists of the two adjacent
lone surrogates U+D800 U+DC00 is framed faithfully, but decoding the frame
merges the escaped pair into the single code point U+10000: the received
method differs from the sent one, so the round trip is not the identity on
every message. -/
theorem c5_surrogate_merge :
    send_request [55296, 56320] (.obj []) none
      = .ok (frameOf (JMessage [55296, 56320] (.obj []) none)) ∧
    read_response (frameOf (JMessage [55296, 56320] (.obj []) none))
      = .ok (some (JMessage [65536] (.obj []) none), []) ∧
    ([65536] : Str) ≠ [55296, 56320] := ⟨rfl, rfl, by decide⟩

/-- C5: for every message whose method is a well-formed string and whose
params are a well-formed value — code points in range and no adjacent
high-low surrogate pair, which every actual Unicode string satisfies — the
frame send_request writes is decoded by read_response back to exactly the
sent method, params and optional id, consuming exactly the frame. -/
theorem c5_round_trip (method : Str) (params : Json) (idOpt : Option Int)
    (hm : wfStr method = true) (hp : wfJ params = true) :
    send_request method params idOpt = .ok (frameOf (JMessage method params idOpt)) ∧
    read_response (frameOf (JMessage method params idOpt))
      = .ok (some (JMessage method params idOpt), []) := by
  refine ⟨send_request_eq method params idOpt, ?_⟩
  have h := read_response_frame (wfJ_JMessage method params idOpt hm hp) []
  simpa using h

theorem c5_round_trip_witness :
    wfStr (cl ['a']) = true ∧ wfJ (.obj []) = true ∧
    (send_request (cl ['a']) (.obj []) (some 1)
       = .ok (frameOf (JMessage (cl ['a']) (.obj []) (some 1))) ∧
     read_response (frameOf (JMessage (cl ['a']) (.obj []) (some 1)))
       = .ok (some (JMessage (cl ['a']) (.obj []) (some 1)), [])) :=
  ⟨by decide, by decide, c5_round_trip (cl ['a']) (.obj []) (some 1) (by decide) (by decide)⟩

/-- C6: within the deadline, a publish diagnostics notification with an empty
list leaves the loop waiting on the remaining stream; with a non-empty list
the first entry alone decides: a message containing the expected substring
ends the session with success and exit status zero, any other message ends
it at once with a mismatch and exit status one. -/
theorem c6_first_diagnostic_decides (msg : Str) (diags : List Json) (e : Rat)
    (clocks : List Rat) (s : List Nat)
    (hmsg : wfStr msg = true) (hdiags : wfJ (.arr diags) = true) (he : e < 5) :
    waitLoop (e :: clocks) (frameOf (diagNotification []) ++ s) = waitLoop clocks s ∧
    (hasSub kwExpected msg = true →
      waitLoop (e :: clocks) (frameOf (diagNotification (diagEntry msg :: diags)) ++ s)
        = .ok .success ∧ exitCode .success = some 0) ∧
    (hasSub kwExpected msg = false →
      waitLoop (e :: clocks) (frameOf (diagNotification (diagEntry msg :: diags)) ++ s)
        = .ok (.mismatch (.str msg)) ∧ exitCode (.mismatch (.str msg)) = some 1) := by
  have hwN : wfJ (diagNotification (diagEntry msg :: diags)) = true :=
    wfJ_diagNotification _ (wfJ_diagEntry_cons msg diags hmsg hdiags)
  have hrN := read_response_frame hwN s
  refine ⟨?_, ?_, ?_⟩
  · have hw0 : wfJ (diagNotification []) = true := by decide
    have hr := read_response_frame hw0 s
    simp only [waitLoop, if_pos he, hr, evalResp_diag_empty]
  · intro h
    refine ⟨?_, rfl⟩
    simp only [waitLoop, if_pos he, hrN, evalResp_diag_cons, h, if_true]
  · intro h
    refine ⟨?_, rfl⟩
    simp only [waitLoop, if_pos he, hrN, evalResp_diag_cons, h]
    simp

theorem c6_first_diagnostic_witness :
    wfStr kwExpected = true ∧ wfJ (.arr []) = true ∧ (0 : Rat) < 5 ∧
    (waitLoop [0] (frameOf (diagNotification []) ++ []) = waitLoop [] [] ∧
     (hasSub kwExpected kwExpected = true →
       waitLoop [0] (frameOf (diagNotification (diagEntry kwExpected :: [])) ++ [])
         = .ok .success ∧ exitCode .success = some 0) ∧
     (hasSub kwExpected kwExpected = false →
       waitLoop [0] (frameOf (diagNotification (diagEntry kwExpected :: [])) ++ [])
         = .ok (.mismatch (.str kwExpected)) ∧
       exitCode (.mismatch (.str kwExpected)) = some 1)) :=
  ⟨by decide, by decide, by norm_num,
   c6_first_diagnostic_decides kwExpected [] 0 [] [] (by decide) (by decide) (by norm_num)⟩

/-- C7: on a stream of messages none of which qualifies — here, any sequence
the loop body discards — the driver keeps discarding while the clock reads
below five, and the first reading at five or beyond ends the wait with the
timeout outcome, a nonzero exit status, and a report distinct from both the
success report and every mismatch report. -/
theorem c7_timeout (msgs : List Json) (clocks : List Rat) (e : Rat)
    (hw : ∀ m ∈ msgs, wfJ m = true) (hq : ∀ m ∈ msgs, evalResp (some m) = .ok none)
    (hlt : ∀ x ∈ clocks, x < 5) (hlen : clocks.length = msgs.length) (he : ¬ e < 5) :
    waitLoop (clocks ++ [e]) (catFrames msgs) = .ok .timeout ∧
    exitCode .timeout = some 1 ∧
    reportOf .timeout ≠ reportOf .success ∧
    (∀ m : Json, reportOf .timeout ≠ reportOf (.mismatch m)) := by
  refine ⟨?_, rfl, by decide, ?_⟩
  · rw [waitLoop_quiet clocks msgs [e] hw hq hlt hlen]
    simp [waitLoop, he]
  · intro m h
    have h9 : (reportOf Outcome.timeout)[9]? = (reportOf (Outcome.mismatch m))[9]? := by
      rw [h]
    rw [show reportOf (Outcome.mismatch m)
        = cl ['F', 'A', 'I', 'L', 'U', 'R', 'E', ':', ' ', 'U', 'n', 'e', 'x', 'p', 'e',
              'c', 't', 'e', 'd', ' ', 'd', 'i', 'a', 'g', 'n', 'o', 's', 't', 'i', 'c',
              ' ', 'm', 'e', 's', 's', 'a', 'g', 'e', ':', ' '] ++ pyStr m from rfl,
      List.getElem?_append_left (by decide)] at h9
    exact absurd h9 (by decide)

theorem c7_timeout_witness :
    (∀ m ∈ [diagNotification []], wfJ m = true) ∧
    (∀ m ∈ [diagNotification []], evalResp (some m) = .ok none) ∧
    (∀ x ∈ ([1] : List Rat), x < 5) ∧ ¬ (6 : Rat) < 5 ∧
    (waitLoop ([1] ++ [6]) (catFrames [diagNotification []]) = .ok .timeout ∧
     exitCode .timeout = some 1 ∧
     reportOf .timeout ≠ reportOf .success ∧
     (∀ m : Json, reportOf .timeout ≠ reportOf (.mismatch m))) :=
  ⟨by intro m hm; rw [List.mem_singleton] at hm; subst hm; decide,
   by intro m hm; rw [List.mem_singleton] at hm; subst hm; rfl,
   by intro x hx; rw [List.mem_singleton] at hx; subst hx; norm_num,
   by norm_num,
   c7_timeout [diagNotification []] [1] 6
     (by intro m hm; rw [List.mem_singleton] at hm; subst hm; decide)
     (by intro m hm; rw [List.mem_singleton] at hm; subst hm; rfl)
     (by intro x hx; rw [List.mem_singleton] at hx; subst hx; norm_num)
     rfl (by norm_num)⟩

/-- C8: the terminate request is issued only on the success, mismatch and
timeout exits; an exception raised during a receive — here a header line
without a colon — propagates out of the loop, and on that path the
subprocess is never asked to terminate. -/
theorem c8_no_terminate_on_exception :
    waitLoop [0] (cl ['o', 'o', 'p', 's'] ++ [13, 10, 13, 10]) = .error .valueError ∧
    terminateAttempted (waitLoop [0] (cl ['o', 'o', 'p', 's'] ++ [13, 10, 13, 10])) = false ∧
    terminateAttempted (.ok .success) = true ∧
    terminateAttempted (.ok .timeout) = true ∧
    (∀ m : Json, terminateAttempted (.ok (.mismatch m)) = true) ∧
    (∀ er : PyErr, terminateAttempted (.error er) = false) :=
  ⟨rfl, rfl, rfl, rfl, fun _ => rfl, fun _ => rfl⟩

/-- C9: a non-empty header line with no colon — here the bytes of garbage
followed by the line terminator — makes the receive operation raise a
ValueError from the two target unpacking of the split, rather than return a
message, the no body signal, or an end of stream result. -/
theorem c9_colonless_header_raises :
    read_response (cl ['g', 'a', 'r', 'b', 'a', 'g', 'e'] ++ [13, 10, 13, 10])
      = .error .valueError := rfl

/-- C10: a well-formed publish diagnostics notification whose params lack the
diagnostics key raises a KeyError in the loop body, as does a first
diagnostic entry without a message key; through the driver the same frame
ends the whole wait loop with that uncaught KeyError. -/
theorem c10_missing_keys_raise :
    evalResp (some (JMessage kwPubDiag (.obj []) none)) = .error .keyError ∧
    evalResp (some (diagNotification [.obj []])) = .error .keyError ∧
    waitLoop [0] (frameOf (JMessage kwPubDiag (.obj []) none)) = .error .keyError :=
  ⟨rfl, rfl, rfl⟩

end VerifyLsp
